import Mathlib

/-!
Verification of the e9tool frontend (src/src/e9tool/e9tool.cpp).

This file shallowly embeds the data model and the algorithms of the
match/action pipeline: the `MatchValue` tagged union and its comparison
(`MatchValue::compare`), the value-kind test evaluation branch of
`matchEval` (including the CSV record-binding logic), the recursive
`matchEval` over `MatchExpr` trees, the rule dispatcher `match`, the
reverse patch-emission walk built on `sendInstructionMessage`, the plugin
entry-point check of `openPlugin`, and the memory-operand validation of
`parseMemOp`.  External collaborators (capstone, std::regex, dlopen) are
abstracted as boolean/functional oracles; everything else follows the C++
source line by line.
-/

namespace E9Tool

/-! ## MatchValue (e9tool.cpp lines 162-230) -/

def MATCH_TYPE_UNDEFINED : Nat := 0x00
def MATCH_TYPE_NIL       : Nat := 0x01
def MATCH_TYPE_INTEGER   : Nat := 0x02
def MATCH_TYPE_OPERAND   : Nat := 0x04
def MATCH_TYPE_ACCESS    : Nat := 0x08
def MATCH_TYPE_REGISTER  : Nat := 0x10
def MATCH_TYPE_MEMORY    : Nat := 0x20
def MATCH_TYPE_STRING    : Nat := 0x40

/-- The `MatchValue` tagged union.  The C union members (`intptr_t i`,
`OpType op`, `Access access`, `Register reg`) are all scalar values; we
model the payload uniformly as an `Int` (the member that is compared is
selected by the type tag, exactly as in `MatchValue::compare`). -/
structure MatchValue where
  type : Nat
  payload : Int
deriving DecidableEq, Repr

/-- The type tags whose payload participates in `compare`: the `switch`
cases `MATCH_TYPE_INTEGER`, `MATCH_TYPE_OPERAND`, `MATCH_TYPE_ACCESS`,
`MATCH_TYPE_REGISTER`; every other tag falls to `default: return 0`. -/
def payloadCompared (t : Nat) : Bool :=
  t == MATCH_TYPE_INTEGER || t == MATCH_TYPE_OPERAND ||
  t == MATCH_TYPE_ACCESS || t == MATCH_TYPE_REGISTER

/-- `MatchValue::compare` (lines 190-214): type tag first, then payload;
returns 1 when `self` is greater, -1 when smaller, 0 when equivalent. -/
def MatchValue.compare (self value : MatchValue) : Int :=
  if value.type < self.type then 1
  else if value.type > self.type then -1
  else if payloadCompared self.type then
    (if value.payload < self.payload then 1
     else if value.payload > self.payload then -1
     else 0)
  else 0

/-- `operator<` -/
def MatchValue.lt (a b : MatchValue) : Bool := a.compare b < 0
/-- `operator<=` -/
def MatchValue.le (a b : MatchValue) : Bool := a.compare b ≤ 0
/-- `operator>` -/
def MatchValue.gt (a b : MatchValue) : Bool := a.compare b > 0
/-- `operator>=` -/
def MatchValue.ge (a b : MatchValue) : Bool := a.compare b ≥ 0
/-- `operator==` -/
def MatchValue.eqv (a b : MatchValue) : Bool := a.compare b == 0

set_option maxHeartbeats 1000000

lemma compare_self (a : MatchValue) : a.compare a = 0 := by
  rcases a with ⟨t, p⟩
  unfold MatchValue.compare
  dsimp only
  split_ifs <;> omega

lemma compare_antisymm (a b : MatchValue) : a.compare b = -(b.compare a) := by
  rcases a with ⟨ta, pa⟩
  rcases b with ⟨tb, pb⟩
  unfold MatchValue.compare
  dsimp only
  rcases Nat.lt_trichotomy ta tb with h | h | h
  · split_ifs <;> omega
  · subst h
    split_ifs <;> omega
  · split_ifs <;> omega

lemma compare_trans_lt {a b c : MatchValue} :
    a.compare b < 0 → b.compare c < 0 → a.compare c < 0 := by
  rcases a with ⟨ta, pa⟩
  rcases b with ⟨tb, pb⟩
  rcases c with ⟨tc, pc⟩
  unfold MatchValue.compare
  dsimp only
  intro h1 h2
  split_ifs at h1 h2 ⊢ <;> omega

lemma compare_trans_le_lt {a b c : MatchValue} :
    a.compare b ≤ 0 → b.compare c < 0 → a.compare c ≤ 0 := by
  rcases a with ⟨ta, pa⟩
  rcases b with ⟨tb, pb⟩
  rcases c with ⟨tc, pc⟩
  unfold MatchValue.compare
  dsimp only
  intro h1 h2
  rcases Nat.lt_trichotomy ta tb with hab | hab | hab <;>
    rcases Nat.lt_trichotomy tb tc with hbc | hbc | hbc <;>
    subst_vars <;> split_ifs at h1 h2 ⊢ <;> omega

lemma compare_trans_lt_le {a b c : MatchValue} :
    a.compare b < 0 → b.compare c ≤ 0 → a.compare c ≤ 0 := by
  rcases a with ⟨ta, pa⟩
  rcases b with ⟨tb, pb⟩
  rcases c with ⟨tc, pc⟩
  unfold MatchValue.compare
  dsimp only
  intro h1 h2
  rcases Nat.lt_trichotomy ta tb with hab | hab | hab <;>
    rcases Nat.lt_trichotomy tb tc with hbc | hbc | hbc <;>
    subst_vars <;> split_ifs at h1 h2 ⊢ <;> omega

/-! ## Value sets and the value-kind test evaluation (e9tool.cpp lines 1757-1821)

`Index<MatchValue>` is an ordered map from `MatchValue` keys to optional
CSV `Record` pointers.  We model it as an association list in strictly
ascending key order (the `std::map` invariant) whose entries carry
`Option Nat` record pointers (`none` = `nullptr`; CSV records are
identified by a `Nat`). -/

/-- An `Index<MatchValue>`: keys paired with `const Record *` values. -/
abbrev Index : Type := List (MatchValue × Option Nat)

/-- The `std::map` key invariant: strictly ascending under `operator<`. -/
def sortedIndex : Index → Bool
  | [] => true
  | [_] => true
  | a :: b :: rest => MatchValue.lt a.1 b.1 && sortedIndex (b :: rest)

/-- `values->find(x)`: the entry whose key is equivalent to `x` under the
comparison order (at most one exists in a `std::map`); returns its mapped
`const Record *`. -/
def Index.find (vs : Index) (x : MatchValue) : Option (Option Nat) :=
  (List.find? (fun p => MatchValue.eqv x p.1) vs).map (fun p => p.2)

/-- `MatchCmp` (e9tool.cpp lines 241-254). -/
inductive MatchCmp where
  | invalid
  | defined
  | eq_zero
  | neq_zero
  | eq
  | neq
  | lt
  | leq
  | gt
  | geq
  | inSet
deriving DecidableEq, Repr

/-- The fields of `MatchTest` that drive the value-kind evaluation branch
of `matchEval`: the comparison, the value set, and the CSV file basename
(`none` = `nullptr`, i.e. the value set was not built from a CSV file).
The attribute-extraction fields (`match`, `idx`, `field`, `plugin`) are
abstracted: claims quantify over the extracted `MatchValue` directly. -/
structure MatchTest where
  cmp : MatchCmp
  values : Index
  basename : Option String
deriving DecidableEq

/-- The guard at lines 1764-1767: tests other than `==0`/`≠0`/`defined`
`break` immediately (with `pass = false`) when the value set is empty. -/
def emptyGuard (cmp : MatchCmp) (values : Index) : Bool :=
  cmp != .eq_zero && cmp != .neq_zero && cmp != .defined &&
  List.length values == 0

/-- The `switch (test->cmp)` at lines 1771-1804 computing `pass`.
`none` models dereferencing `begin()`/`rbegin()` of an empty map (the
behaviour is undefined in C++); the `default: return false` cases
(`MATCH_CMP_INVALID`, `MATCH_CMP_IN`) yield `false` and, in the source,
return from `matchEval` directly — which is observationally the same as
falling through, since a false `pass` skips the CSV-binding block. -/
def passOf (cmp : MatchCmp) (values : Index) (x : MatchValue) : Option Bool :=
  match cmp with
  | .defined  => some true
  | .eq_zero  => some (x.type == MATCH_TYPE_INTEGER && x.payload == 0)
  | .neq_zero => some (x.type == MATCH_TYPE_INTEGER && !(x.payload == 0))
  | .eq       => some (Index.find values x).isSome
  | .neq      => some (if List.length values == 1
                       then (Index.find values x).isNone else true)
  | .lt   => (values.getLast?).map (fun p => MatchValue.lt x p.1)
  | .leq  => (values.getLast?).map (fun p => MatchValue.le x p.1)
  | .gt   => (values.head?).map (fun p => MatchValue.gt x p.1)
  | .geq  => (values.head?).map (fun p => MatchValue.ge x p.1)
  | .invalid => some false
  | .inSet   => some false

/-- The value-kind test branch of `matchEval` (lines 1757-1821): the
empty-set guard, the comparison switch, the `undefined`-value override
(lines 1805-1806), and the CSV record-binding block (lines 1808-1820).
`bn`/`rec0` are the `basename`/`*record` arguments of `matchEval`
(`none` = `nullptr`).  Results: `none` = undefined behaviour (an
empty-map `begin()`/`rbegin()` dereference, or `strcmp(nullptr, bn)` on a
passing equality test whose value set is not CSV-backed);
`some (.error ())` = the fatal `error(...)` call;
`some (.ok (pass, rec))` = normal return with the updated record slot. -/
def matchEvalTest (t : MatchTest) (x : MatchValue) (bn : Option String)
    (rec0 : Option Nat) : Option (Except Unit (Bool × Option Nat)) :=
  if emptyGuard t.cmp t.values then
    some (.ok (false, rec0))
  else
    match passOf t.cmp t.values x with
    | none => none
    | some pass0 =>
      let pass := if x.type == MATCH_TYPE_UNDEFINED then false else pass0
      match bn with
      | none => some (.ok (pass, rec0))
      | some b =>
        if pass && t.cmp == .eq then
          match t.basename with
          | none => none
          | some tb =>
            if tb == b then
              match Index.find t.values x with
              | none => some (.ok (pass, rec0))
              | some r2 =>
                if rec0.isSome && !(r2 == rec0) then some (.error ())
                else some (.ok (pass, r2))
            else some (.ok (pass, rec0))
        else some (.ok (pass, rec0))

/-! ## Order lemmas about sorted indexes -/

lemma sorted_tail {a : MatchValue × Option Nat} {rest : Index} :
    sortedIndex (a :: rest) = true → sortedIndex rest = true := by
  cases rest with
  | nil => intro _; rfl
  | cons b r =>
    intro h
    simp only [sortedIndex, Bool.and_eq_true] at h
    exact h.2

lemma sorted_le_last {vs : Index} {M : MatchValue × Option Nat} :
    sortedIndex vs = true → vs.getLast? = some M →
    ∀ v ∈ vs, MatchValue.compare v.1 M.1 ≤ 0 := by
  induction vs with
  | nil => intro _ h; cases h
  | cons a rest ih =>
    intro hs hM v hv
    cases rest with
    | nil =>
      simp only [List.getLast?_singleton, Option.some.injEq] at hM
      subst hM
      simp only [List.mem_singleton] at hv
      subst hv
      simp [compare_self]
    | cons b r =>
      have hlast : (b :: r).getLast? = some M := by
        simpa [List.getLast?_cons_cons] using hM
      have hs' : sortedIndex (b :: r) = true := sorted_tail hs
      have hab : MatchValue.compare a.1 b.1 < 0 := by
        simp only [sortedIndex, Bool.and_eq_true, MatchValue.lt,
          decide_eq_true_eq] at hs
        exact hs.1
      rcases List.mem_cons.mp hv with hva | hvr
      · subst hva
        have hbM : MatchValue.compare b.1 M.1 ≤ 0 :=
          ih hs' hlast b (List.mem_cons_self b r)
        exact compare_trans_lt_le hab hbM
      · exact ih hs' hlast v hvr

lemma sorted_lt_of_mem_tail {a : MatchValue × Option Nat} {rest : Index} :
    sortedIndex (a :: rest) = true →
    ∀ v ∈ rest, MatchValue.compare a.1 v.1 < 0 := by
  induction rest generalizing a with
  | nil => intro _ v hv; cases hv
  | cons b r ih =>
    intro hs v hv
    have hab : MatchValue.compare a.1 b.1 < 0 := by
      simp only [sortedIndex, Bool.and_eq_true, MatchValue.lt,
        decide_eq_true_eq] at hs
      exact hs.1
    rcases List.mem_cons.mp hv with hvb | hvr
    · subst hvb; exact hab
    · exact compare_trans_lt hab (ih (sorted_tail hs) v hvr)

lemma sorted_head_le {vs : Index} {m : MatchValue × Option Nat} :
    sortedIndex vs = true → vs.head? = some m →
    ∀ v ∈ vs, MatchValue.compare m.1 v.1 ≤ 0 := by
  cases vs with
  | nil => intro _ h; cases h
  | cons a rest =>
    intro hs hm v hv
    simp only [List.head?_cons, Option.some.injEq] at hm
    subst hm
    rcases List.mem_cons.mp hv with hva | hvr
    · subst hva
      simp [compare_self]
    · exact le_of_lt (sorted_lt_of_mem_tail hs v hvr)

/-! ## Evaluation lemmas for the value-kind test branch -/

lemma emptyGuard_false_of_ne_nil (cmp : MatchCmp) {values : Index}
    (h : values ≠ []) : emptyGuard cmp values = false := by
  unfold emptyGuard
  cases values with
  | nil => exact absurd rfl h
  | cons a l => simp

lemma values_ne_nil_of_guard_false {cmp : MatchCmp} {values : Index}
    (hc : cmp ≠ .eq_zero ∧ cmp ≠ .neq_zero ∧ cmp ≠ .defined)
    (hg : emptyGuard cmp values = false) : values ≠ [] := by
  intro hv
  subst hv
  unfold emptyGuard at hg
  obtain ⟨h1, h2, h3⟩ := hc
  simp [bne_iff_ne, h1, h2, h3] at hg

lemma passOf_isSome {cmp : MatchCmp} {values : Index} (x : MatchValue)
    (hg : emptyGuard cmp values = false) :
    ∃ p0, passOf cmp values x = some p0 := by
  cases cmp
  case lt =>
    have h : values ≠ [] :=
      values_ne_nil_of_guard_false (by refine ⟨?_, ?_, ?_⟩ <;> intro h <;> cases h) hg
    rw [show passOf .lt values x = (values.getLast?).map (fun p => MatchValue.lt x p.1) from rfl,
      List.getLast?_eq_getLast values h]
    exact ⟨_, rfl⟩
  case leq =>
    have h : values ≠ [] :=
      values_ne_nil_of_guard_false (by refine ⟨?_, ?_, ?_⟩ <;> intro h <;> cases h) hg
    rw [show passOf .leq values x = (values.getLast?).map (fun p => MatchValue.le x p.1) from rfl,
      List.getLast?_eq_getLast values h]
    exact ⟨_, rfl⟩
  case gt =>
    have h : values ≠ [] :=
      values_ne_nil_of_guard_false (by refine ⟨?_, ?_, ?_⟩ <;> intro h <;> cases h) hg
    cases values with
    | nil => exact absurd rfl h
    | cons a l => exact ⟨_, rfl⟩
  case geq =>
    have h : values ≠ [] :=
      values_ne_nil_of_guard_false (by refine ⟨?_, ?_, ?_⟩ <;> intro h <;> cases h) hg
    cases values with
    | nil => exact absurd rfl h
    | cons a l => exact ⟨_, rfl⟩
  all_goals exact ⟨_, rfl⟩

/-- When the binding block is not reached (the computed `pass` is false, or
the comparison is not `=`), `matchEval`'s value-test branch returns the
computed `pass` and leaves the record slot untouched. -/
lemma matchEvalTest_ok_no_bind (t : MatchTest) (x : MatchValue) (bn : Option String)
    (rec0 : Option Nat) (p0 : Bool)
    (hg : emptyGuard t.cmp t.values = false)
    (hp : passOf t.cmp t.values x = some p0)
    (hnb : (if x.type == MATCH_TYPE_UNDEFINED then false else p0) = false ∨ t.cmp ≠ .eq) :
    matchEvalTest t x bn rec0 =
      some (.ok (if x.type == MATCH_TYPE_UNDEFINED then false else p0, rec0)) := by
  unfold matchEvalTest
  rw [hg, hp]
  simp only [Bool.false_eq_true, if_false]
  cases bn with
  | none => rfl
  | some b =>
    rcases hnb with hnb | hnb
    · rw [hnb]
      simp
    · have hc : (t.cmp == MatchCmp.eq) = false := by
        simpa [bne_iff_ne] using hnb
      rw [hc]
      simp

/-- C4: for every value-kind test whose comparison is not `defined`
(`==0`, `≠0`, `=`, `≠`, `<`, `≤`, `>`, `≥`, `in`, or even invalid), an
`undefined` extracted value makes the test evaluate to false (lines
1805-1806 force `pass = false`, so no error and no binding occur); and a
`defined(attr)` test evaluates to true exactly when the extracted value
is not `undefined`. -/
theorem undefined_fails_every_comparison (t : MatchTest) (x : MatchValue)
    (bn : Option String) (rec0 : Option Nat) :
    (t.cmp ≠ .defined → x.type = MATCH_TYPE_UNDEFINED →
      matchEvalTest t x bn rec0 = some (.ok (false, rec0)))
    ∧ (t.cmp = .defined →
      matchEvalTest t x bn rec0 =
        some (.ok (!(x.type == MATCH_TYPE_UNDEFINED), rec0))) := by
  constructor
  · intro hne hx
    have hxb : (x.type == MATCH_TYPE_UNDEFINED) = true := by
      rw [hx]; exact beq_self_eq_true _
    by_cases hg : emptyGuard t.cmp t.values = true
    · unfold matchEvalTest
      rw [hg]
      simp
    · have hg' : emptyGuard t.cmp t.values = false := by
        simpa using hg
      obtain ⟨p0, hp⟩ := passOf_isSome x hg'
      have h := matchEvalTest_ok_no_bind t x bn rec0 p0 hg' hp (Or.inl (by rw [hxb]; rfl))
      rw [h, hxb]
      rfl
  · intro hc
    have hg : emptyGuard t.cmp t.values = false := by
      unfold emptyGuard
      rw [hc]
      simp
    have hp : passOf t.cmp t.values x = some true := by rw [hc]; rfl
    have h := matchEvalTest_ok_no_bind t x bn rec0 true hg hp
      (Or.inr (by rw [hc]; intro h; cases h))
    rw [h]
    cases hxb : (x.type == MATCH_TYPE_UNDEFINED) <;> simp

/-- Witness for C4 at concrete inputs: an `=` test on an `undefined`
value is false; a `defined` test on an integer value is true. -/
theorem undefined_fails_every_comparison_witness :
    matchEvalTest ⟨.eq, [(⟨MATCH_TYPE_INTEGER, 5⟩, none)], none⟩
        ⟨MATCH_TYPE_UNDEFINED, 0⟩ none none = some (.ok (false, none))
    ∧ matchEvalTest ⟨.defined, [], none⟩ ⟨MATCH_TYPE_INTEGER, 1⟩ none none =
        some (.ok (true, none)) := by
  constructor
  · exact (undefined_fails_every_comparison _ _ _ _).1 (by decide) rfl
  · have h := (undefined_fails_every_comparison
      ⟨.defined, [], none⟩ ⟨MATCH_TYPE_INTEGER, 1⟩ none none).2 rfl
    simpa using h

/-- C10: for `=`, `≠`, `<`, `≤`, `>`, `≥` with an empty value set, the
guard at lines 1764-1767 short-circuits the evaluation to false: the
`begin()`/`rbegin()` dereferences (which would be undefined behaviour,
`none` in this model) are never reached. -/
theorem empty_value_set_is_false (t : MatchTest) (x : MatchValue)
    (bn : Option String) (rec0 : Option Nat)
    (hc : t.cmp = .eq ∨ t.cmp = .neq ∨ t.cmp = .lt ∨ t.cmp = .leq ∨
          t.cmp = .gt ∨ t.cmp = .geq)
    (hv : t.values = []) :
    matchEvalTest t x bn rec0 = some (.ok (false, rec0)) := by
  have hg : emptyGuard t.cmp t.values = true := by
    rcases hc with h | h | h | h | h | h <;> rw [h, hv] <;> rfl
  unfold matchEvalTest
  rw [hg]
  simp

/-- Witness for C10: a `<` test with an empty value set evaluates to
false (rather than dereferencing `rbegin()` of an empty map). -/
theorem empty_value_set_is_false_witness :
    matchEvalTest ⟨.lt, [], none⟩ ⟨MATCH_TYPE_INTEGER, 7⟩ none (some 3) =
      some (.ok (false, some 3)) :=
  empty_value_set_is_false _ _ _ _ (Or.inr (Or.inr (Or.inl rfl))) rfl

lemma find_isNone_eq (values : Index) (x : MatchValue) :
    (Index.find values x).isNone =
      decide (∀ v ∈ values, MatchValue.compare x v.1 ≠ 0) := by
  unfold Index.find
  by_cases h : ∀ v ∈ values, MatchValue.compare x v.1 ≠ 0
  · have hn : List.find? (fun p => MatchValue.eqv x p.1) values = none := by
      apply List.find?_eq_none.mpr
      intro a ha
      simp [MatchValue.eqv, h a ha]
    rw [hn, decide_eq_true h]
    rfl
  · have hsome : (List.find? (fun p => MatchValue.eqv x p.1) values).isSome := by
      rw [List.find?_isSome]
      push_neg at h
      obtain ⟨v, hv, hcv⟩ := h
      exact ⟨v, hv, by simp [MatchValue.eqv, hcv]⟩
    obtain ⟨pr, hpr⟩ := Option.isSome_iff_exists.mp hsome
    rw [hpr, decide_eq_false h]
    rfl

/-- C5: a `≠` test with a non-`undefined` extracted value: against a
one-element value set it tests non-membership; against a larger set it is
identically true (lines 1785-1789). -/
theorem neq_set_semantics (t : MatchTest) (x : MatchValue) (bn : Option String)
    (rec0 : Option Nat) (hc : t.cmp = .neq) (hx : x.type ≠ MATCH_TYPE_UNDEFINED) :
    (t.values.length = 1 →
      matchEvalTest t x bn rec0 =
        some (.ok (decide (∀ v ∈ t.values, MatchValue.compare x v.1 ≠ 0), rec0)))
    ∧ (1 < t.values.length →
      matchEvalTest t x bn rec0 = some (.ok (true, rec0))) := by
  have hxb : (x.type == MATCH_TYPE_UNDEFINED) = false := by
    simpa using hx
  constructor
  · intro hlen
    have hg : emptyGuard t.cmp t.values = false := by
      refine emptyGuard_false_of_ne_nil _ ?_
      intro h
      rw [h] at hlen
      cases hlen
    have hp : passOf t.cmp t.values x = some ((Index.find t.values x).isNone) := by
      rw [hc]
      unfold passOf
      rw [show (List.length t.values == 1) = true by simp [hlen]]
      simp
    have h := matchEvalTest_ok_no_bind t x bn rec0 _ hg hp
      (Or.inr (by rw [hc]; intro h; cases h))
    rw [h, hxb, find_isNone_eq]
    rfl
  · intro hlen
    have hg : emptyGuard t.cmp t.values = false := by
      refine emptyGuard_false_of_ne_nil _ ?_
      intro h
      rw [h] at hlen
      cases hlen
    have hp : passOf t.cmp t.values x = some true := by
      rw [hc]
      unfold passOf
      rw [show (List.length t.values == 1) = false by
        simp
        omega]
      simp
    have h := matchEvalTest_ok_no_bind t x bn rec0 _ hg hp
      (Or.inr (by rw [hc]; intro h; cases h))
    rw [h, hxb]
    rfl

/-- Witness for C5: `≠ {5}` on the value 7 is true, and `≠ {5, 9}` is
true even on the member value 5. -/
theorem neq_set_semantics_witness :
    matchEvalTest ⟨.neq, [(⟨MATCH_TYPE_INTEGER, 5⟩, none)], none⟩
        ⟨MATCH_TYPE_INTEGER, 7⟩ none none = some (.ok (true, none))
    ∧ matchEvalTest
        ⟨.neq, [(⟨MATCH_TYPE_INTEGER, 5⟩, none), (⟨MATCH_TYPE_INTEGER, 9⟩, none)], none⟩
        ⟨MATCH_TYPE_INTEGER, 5⟩ none none = some (.ok (true, none)) := by
  constructor
  · have h := (neq_set_semantics ⟨.neq, [(⟨MATCH_TYPE_INTEGER, 5⟩, none)], none⟩
      ⟨MATCH_TYPE_INTEGER, 7⟩ none none rfl (by decide)).1 rfl
    rw [h]
    norm_num [MatchValue.compare, payloadCompared,
      MATCH_TYPE_INTEGER, MATCH_TYPE_OPERAND, MATCH_TYPE_ACCESS, MATCH_TYPE_REGISTER]
  · exact (neq_set_semantics _ _ none none rfl (by decide)).2 (by simp)

/-- C6: with a sorted non-empty value set and a non-`undefined` value,
`<`/`≤` compare against `rbegin()` — the maximum of the set — and
`>`/`≥` against `begin()` — the minimum — under the `MatchValue` order
(type tag first, then payload); lines 1790-1801. -/
theorem ordered_cmps_use_extrema (t : MatchTest) (x : MatchValue)
    (bn : Option String) (rec0 : Option Nat)
    (hs : sortedIndex t.values = true) (hx : x.type ≠ MATCH_TYPE_UNDEFINED)
    (M m : MatchValue × Option Nat)
    (hM : t.values.getLast? = some M) (hm : t.values.head? = some m) :
    (∀ v ∈ t.values, MatchValue.compare v.1 M.1 ≤ 0)
    ∧ (∀ v ∈ t.values, MatchValue.compare m.1 v.1 ≤ 0)
    ∧ (t.cmp = .lt →
        matchEvalTest t x bn rec0 = some (.ok (MatchValue.lt x M.1, rec0)))
    ∧ (t.cmp = .leq →
        matchEvalTest t x bn rec0 = some (.ok (MatchValue.le x M.1, rec0)))
    ∧ (t.cmp = .gt →
        matchEvalTest t x bn rec0 = some (.ok (MatchValue.gt x m.1, rec0)))
    ∧ (t.cmp = .geq →
        matchEvalTest t x bn rec0 = some (.ok (MatchValue.ge x m.1, rec0))) := by
  have hxb : (x.type == MATCH_TYPE_UNDEFINED) = false := by
    simpa using hx
  have hne : t.values ≠ [] := by
    intro h
    rw [h] at hM
    cases hM
  have hg : ∀ cmp, emptyGuard cmp t.values = false := fun cmp =>
    emptyGuard_false_of_ne_nil cmp hne
  refine ⟨sorted_le_last hs hM, sorted_head_le hs hm, ?_, ?_, ?_, ?_⟩
  · intro hc
    have hp : passOf t.cmp t.values x = some (MatchValue.lt x M.1) := by
      rw [hc]
      unfold passOf
      rw [hM]
      rfl
    have h := matchEvalTest_ok_no_bind t x bn rec0 _ (hg t.cmp) hp
      (Or.inr (by rw [hc]; intro h; cases h))
    rw [h, hxb]
    rfl
  · intro hc
    have hp : passOf t.cmp t.values x = some (MatchValue.le x M.1) := by
      rw [hc]
      unfold passOf
      rw [hM]
      rfl
    have h := matchEvalTest_ok_no_bind t x bn rec0 _ (hg t.cmp) hp
      (Or.inr (by rw [hc]; intro h; cases h))
    rw [h, hxb]
    rfl
  · intro hc
    have hp : passOf t.cmp t.values x = some (MatchValue.gt x m.1) := by
      rw [hc]
      unfold passOf
      rw [hm]
      rfl
    have h := matchEvalTest_ok_no_bind t x bn rec0 _ (hg t.cmp) hp
      (Or.inr (by rw [hc]; intro h; cases h))
    rw [h, hxb]
    rfl
  · intro hc
    have hp : passOf t.cmp t.values x = some (MatchValue.ge x m.1) := by
      rw [hc]
      unfold passOf
      rw [hm]
      rfl
    have h := matchEvalTest_ok_no_bind t x bn rec0 _ (hg t.cmp) hp
      (Or.inr (by rw [hc]; intro h; cases h))
    rw [h, hxb]
    rfl

/-- Witness for C6: `< {3, 9}` on the value 5 compares against the
maximum 9 and is true. -/
theorem ordered_cmps_use_extrema_witness :
    matchEvalTest
      ⟨.lt, [(⟨MATCH_TYPE_INTEGER, 3⟩, none), (⟨MATCH_TYPE_INTEGER, 9⟩, none)], none⟩
      ⟨MATCH_TYPE_INTEGER, 5⟩ none none = some (.ok (true, none)) := by
  have h := (ordered_cmps_use_extrema
    ⟨.lt, [(⟨MATCH_TYPE_INTEGER, 3⟩, none), (⟨MATCH_TYPE_INTEGER, 9⟩, none)], none⟩
    ⟨MATCH_TYPE_INTEGER, 5⟩ none none (by decide) (by decide)
    (⟨MATCH_TYPE_INTEGER, 9⟩, none) (⟨MATCH_TYPE_INTEGER, 3⟩, none)
    (by decide) (by decide)).2.2.1 rfl
  rw [h]
  norm_num [MatchValue.lt, MatchValue.compare, payloadCompared,
    MATCH_TYPE_INTEGER, MATCH_TYPE_OPERAND, MATCH_TYPE_ACCESS, MATCH_TYPE_REGISTER]

/-! ## Match expression trees and recursive evaluation
(e9tool.cpp lines 306-344 and 1684-1712) -/

/-- `MatchExpr`.  A `test` leaf is a value-kind test (the
`MATCH_TRUE ... MATCH_SIZE` branch of the test switch); a `boolTest`
leaf stands for the `MATCH_ASSEMBLY`/`MATCH_MNEMONIC` (std::regex) and
`MATCH_READS`/`MATCH_WRITES`/`MATCH_REGS` (capstone register-set)
branches, whose boolean outcome is abstracted — in the source those
branches neither consult the record slot nor raise the ambiguity
error. -/
inductive MatchExpr where
  | test (t : MatchTest)
  | boolTest (b : Bool)
  | notE (e : MatchExpr)
  | andE (e1 e2 : MatchExpr)
  | orE (e1 e2 : MatchExpr)

/-- `matchEval` (lines 1684-1712, plus the test switch already embedded
as `matchEvalTest`).  `ext t` stands for
`makeMatchValue(test->match, test->idx, test->field, I, offset, ...)`
for the instruction under evaluation.  `MATCH_OP_NOT` evaluates its
argument with `basename`/`record` both `nullptr`; `MATCH_OP_AND` and
`MATCH_OP_OR` short-circuit and propagate them. -/
def matchEval (ext : MatchTest → MatchValue) :
    MatchExpr → Option String → Option Nat →
    Option (Except Unit (Bool × Option Nat))
  | .test t, bn, rec0 => matchEvalTest t (ext t) bn rec0
  | .boolTest b, _, rec0 => some (.ok (b, rec0))
  | .notE e, _, rec0 =>
    match matchEval ext e none none with
    | none => none
    | some (.error er) => some (.error er)
    | some (.ok (p, _)) => some (.ok (!p, rec0))
  | .andE e1 e2, bn, rec0 =>
    match matchEval ext e1 bn rec0 with
    | none => none
    | some (.error er) => some (.error er)
    | some (.ok (p1, rec1)) =>
      if p1 then matchEval ext e2 bn rec1 else some (.ok (false, rec1))
  | .orE e1 e2, bn, rec0 =>
    match matchEval ext e1 bn rec0 with
    | none => none
    | some (.error er) => some (.error er)
    | some (.ok (p1, rec1)) =>
      if p1 then some (.ok (true, rec1)) else matchEval ext e2 bn rec1

lemma matchEvalTest_bound_stays {t : MatchTest} {x : MatchValue}
    {bn : Option String} {r : Nat} {p : Bool} {rec' : Option Nat} :
    matchEvalTest t x bn (some r) = some (.ok (p, rec')) → rec' = some r := by
  intro h
  unfold matchEvalTest at h
  repeat' split at h
  all_goals simp_all
  all_goals split at h <;> simp_all

/-- C7: within one CSV-tracked evaluation (fixed basename and record
slot), a bound record is never replaced: if evaluation completes without
the fatal error, the slot still holds the originally bound record.  And
at the test level, a passing `=` test through the tracked basename that
finds a record distinct from the already-bound one raises the fatal
ambiguity error (lines 1808-1820) instead of rebinding. -/
theorem csv_binding_unique :
    (∀ (ext : MatchTest → MatchValue) (e : MatchExpr) (b : String) (r : Nat)
        (p : Bool) (rec' : Option Nat),
      matchEval ext e (some b) (some r) = some (.ok (p, rec')) → rec' = some r)
    ∧ (∀ (t : MatchTest) (x : MatchValue) (b : String) (r1 : Nat)
        (r2 : Option Nat),
      t.cmp = .eq → t.basename = some b → x.type ≠ MATCH_TYPE_UNDEFINED →
      Index.find t.values x = some r2 → r2 ≠ some r1 →
      matchEvalTest t x (some b) (some r1) = some (.error ())) := by
  constructor
  · intro ext e
    induction e with
    | test t =>
      intro b r p rec' h
      exact matchEvalTest_bound_stays h
    | boolTest bb =>
      intro b r p rec' h
      simp only [matchEval, Option.some.injEq, Except.ok.injEq,
        Prod.mk.injEq] at h
      exact h.2.symm
    | notE e ih =>
      intro b r p rec' h
      simp only [matchEval] at h
      split at h <;> simp_all
    | andE e1 e2 ih1 ih2 =>
      intro b r p rec' h
      simp only [matchEval] at h
      split at h
      · cases h
      · cases h
      · rename_i p1 rec1 heq
        have hrec1 : rec1 = some r := ih1 b r p1 rec1 heq
        subst hrec1
        by_cases hp1 : p1 = true
        · rw [if_pos hp1] at h
          exact ih2 b r p rec' h
        · rw [if_neg hp1] at h
          simp only [Option.some.injEq, Except.ok.injEq, Prod.mk.injEq] at h
          exact h.2.symm
    | orE e1 e2 ih1 ih2 =>
      intro b r p rec' h
      simp only [matchEval] at h
      split at h
      · cases h
      · cases h
      · rename_i p1 rec1 heq
        have hrec1 : rec1 = some r := ih1 b r p1 rec1 heq
        subst hrec1
        by_cases hp1 : p1 = true
        · rw [if_pos hp1] at h
          simp only [Option.some.injEq, Except.ok.injEq, Prod.mk.injEq] at h
          exact h.2.symm
        · rw [if_neg hp1] at h
          exact ih2 b r p rec' h
  · intro t x b r1 r2 hc hbase hx hfind hne
    have hvne : t.values ≠ [] := by
      intro hv
      rw [hv] at hfind
      cases hfind
    have hg : emptyGuard t.cmp t.values = false :=
      emptyGuard_false_of_ne_nil _ hvne
    have hp : passOf t.cmp t.values x = some true := by
      rw [hc]
      unfold passOf
      rw [hfind]
      rfl
    have hxb : (x.type == MATCH_TYPE_UNDEFINED) = false := by
      simpa using hx
    unfold matchEvalTest
    rw [hg, hp]
    simp only [Bool.false_eq_true, if_false, hxb]
    rw [hc, hbase]
    simp only [beq_self_eq_true, Bool.and_true, Bool.true_and, if_true]
    rw [hfind]
    simp only [Option.isSome_some, Bool.true_and]
    have hr2 : (r2 == some r1) = false := by
      simpa using hne
    rw [hr2]
    rfl

/-- Witness for C7: a conflict-free evaluation keeps the bound record,
and a conflicting `=` lookup (set maps value 5 to record 2, slot holds
record 1) errors. -/
theorem csv_binding_unique_witness :
    (some 1 : Option Nat) = some 1
    ∧ matchEvalTest ⟨.eq, [(⟨MATCH_TYPE_INTEGER, 5⟩, some 2)], some "f"⟩
        ⟨MATCH_TYPE_INTEGER, 5⟩ (some "f") (some 1) = some (.error ()) := by
  constructor
  · exact csv_binding_unique.1 (fun _ => ⟨MATCH_TYPE_INTEGER, 5⟩)
      (.andE (.test ⟨.eq, [(⟨MATCH_TYPE_INTEGER, 5⟩, some 1)], some "f"⟩)
        (.boolTest true)) "f" 1 true (some 1) (by rfl)
  · exact csv_binding_unique.2 ⟨.eq, [(⟨MATCH_TYPE_INTEGER, 5⟩, some 2)], some "f"⟩
      ⟨MATCH_TYPE_INTEGER, 5⟩ "f" 1 (some 2) rfl rfl (by decide) (by decide)
      (by decide)

/-! ## The rule dispatcher (e9tool.cpp lines 1830-1890) -/

lemma matchEvalTest_none_ok (t : MatchTest) (x : MatchValue) (rec0 : Option Nat) :
    ∃ p, matchEvalTest t x none rec0 = some (.ok (p, rec0)) := by
  by_cases hg : emptyGuard t.cmp t.values = true
  · refine ⟨false, ?_⟩
    unfold matchEvalTest
    rw [hg]
    simp
  · have hg' : emptyGuard t.cmp t.values = false := by simpa using hg
    obtain ⟨p0, hp⟩ := passOf_isSome x hg'
    refine ⟨if x.type == MATCH_TYPE_UNDEFINED then false else p0, ?_⟩
    unfold matchEvalTest
    rw [hg', hp]
    simp

lemma matchEval_none_ok (ext : MatchTest → MatchValue) (e : MatchExpr) :
    ∀ rec0, ∃ p rec', matchEval ext e none rec0 = some (.ok (p, rec')) := by
  induction e with
  | test t =>
    intro rec0
    obtain ⟨p, hp⟩ := matchEvalTest_none_ok t (ext t) rec0
    exact ⟨p, rec0, hp⟩
  | boolTest b =>
    intro rec0
    exact ⟨b, rec0, rfl⟩
  | notE e ih =>
    intro rec0
    obtain ⟨p, rec', h⟩ := ih none
    refine ⟨!p, rec0, ?_⟩
    simp only [matchEval]
    rw [h]
  | andE e1 e2 ih1 ih2 =>
    intro rec0
    obtain ⟨p1, rec1, h1⟩ := ih1 rec0
    by_cases hp1 : p1 = true
    · obtain ⟨p2, rec2, h2⟩ := ih2 rec1
      refine ⟨p2, rec2, ?_⟩
      simp only [matchEval, h1]
      rw [if_pos hp1]
      exact h2
    · refine ⟨false, rec1, ?_⟩
      simp only [matchEval, h1]
      rw [if_neg hp1]
  | orE e1 e2 ih1 ih2 =>
    intro rec0
    obtain ⟨p1, rec1, h1⟩ := ih1 rec0
    by_cases hp1 : p1 = true
    · refine ⟨true, rec1, ?_⟩
      simp only [matchEval, h1]
      rw [if_pos hp1]
    · obtain ⟨p2, rec2, h2⟩ := ih2 rec1
      refine ⟨p2, rec2, ?_⟩
      simp only [matchEval, h1]
      rw [if_neg hp1]
      exact h2

/-- `matchAction` (lines 1830-1848): evaluate the action's match
expression with `basename`/`record` both `nullptr` and return `pass`.
In that mode evaluation always returns normally
(`matchEval_none_ok`); the catch-all `false` arm is unreachable. -/
def matchActionB (ext : MatchTest → MatchValue) (e : MatchExpr) : Bool :=
  match matchEval ext e none none with
  | some (.ok (p, _)) => p
  | _ => false

/-- `match` (lines 1877-1890): walk the actions in order; return the
index of the first whose expression matches, `-1` when none does. -/
def matchRules (ext : MatchTest → MatchValue) :
    List MatchExpr → Nat → Int
  | [], _ => -1
  | a :: rest, idx =>
    if matchActionB ext a then (idx : Int) else matchRules ext rest (idx + 1)

/-- The dispatcher: `match(handle, actions, I, offset)` starting at
index 0. -/
def dispatch (ext : MatchTest → MatchValue) (actions : List MatchExpr) : Int :=
  matchRules ext actions 0

lemma matchRules_none (ext : MatchTest → MatchValue) :
    ∀ (l : List MatchExpr) (idx : Nat),
      (matchRules ext l idx = -1 ↔ ∀ e ∈ l, matchActionB ext e = false) := by
  intro l
  induction l with
  | nil => intro idx; simp [matchRules]
  | cons a rest ih =>
    intro idx
    by_cases hp : matchActionB ext a = true
    · simp only [matchRules, hp, if_true]
      constructor
      · intro h
        omega
      · intro h
        rw [h a (List.mem_cons_self a rest)] at hp
        cases hp
    · have hp' : matchActionB ext a = false := by simpa using hp
      simp only [matchRules, hp', Bool.false_eq_true, if_false]
      rw [ih (idx + 1)]
      constructor
      · intro h e he
        rcases List.mem_cons.mp he with rfl | he'
        · simpa using hp
        · exact h e he'
      · intro h e he
        exact h e (List.mem_cons_of_mem a he)

lemma matchRules_first (ext : MatchTest → MatchValue) :
    ∀ (l : List MatchExpr) (idx : Nat) (i : Nat) (h : i < l.length),
      matchActionB ext (l.get ⟨i, h⟩) = true →
      (∀ j (hj : j < i), matchActionB ext (l.get ⟨j, Nat.lt_trans hj h⟩) = false) →
      matchRules ext l idx = ((idx : Int) + (i : Int)) := by
  intro l
  induction l with
  | nil =>
    intro idx i h
    cases h
  | cons a rest ih =>
    intro idx i h hi hprev
    cases i with
    | zero =>
      simp only [List.get] at hi
      simp [matchRules, hi]
    | succ j =>
      have ha : matchActionB ext a = false := by
        have := hprev 0 (Nat.succ_pos j)
        simpa using this
      simp only [matchRules, ha, Bool.false_eq_true, if_false]
      have h' : j < rest.length := by
        simpa using h
      have hj' : matchActionB ext (rest.get ⟨j, h'⟩) = true := by
        simpa using hi
      have hprev' : ∀ k (hk : k < j),
          matchActionB ext (rest.get ⟨k, Nat.lt_trans hk h'⟩) = false := by
        intro k hk
        have := hprev (k + 1) (Nat.succ_lt_succ hk)
        simpa using this
      have := ih (idx + 1) j h' hj' hprev'
      rw [this]
      push_cast
      ring

lemma matchRules_bounds (ext : MatchTest → MatchValue) :
    ∀ (l : List MatchExpr) (idx : Nat) (i : Nat) (h : i < l.length),
      matchActionB ext (l.get ⟨i, h⟩) = true →
      (idx : Int) ≤ matchRules ext l idx ∧
        matchRules ext l idx ≤ (idx : Int) + (i : Int) := by
  intro l
  induction l with
  | nil =>
    intro idx i h
    cases h
  | cons a rest ih =>
    intro idx i h hi
    by_cases hp : matchActionB ext a = true
    · simp only [matchRules, hp, if_true]
      constructor
      · exact le_refl _
      · omega
    · have hi0 : i ≠ 0 := by
        intro h0
        subst h0
        simp only [List.get] at hi
        rw [hi] at hp
        exact hp rfl
      obtain ⟨j, rfl⟩ := Nat.exists_eq_succ_of_ne_zero hi0
      have h' : j < rest.length := by simpa using h
      have hj' : matchActionB ext (rest.get ⟨j, h'⟩) = true := by
        simpa using hi
      have := ih (idx + 1) j h' hj'
      have hp' : matchActionB ext a = false := by simpa using hp
      simp only [matchRules, hp', Bool.false_eq_true, if_false]
      constructor
      · have h1 := this.1
        push_cast at h1 ⊢
        omega
      · have h2 := this.2
        push_cast at h2 ⊢
        omega

/-- C1: the dispatcher returns `-1` exactly when no rule matches;
returns the index of the first (lowest-indexed) matching rule; and when
two rules at positions `i < j` both match, the result is a valid index
no larger than `i` — in particular the earlier rule takes priority over
the later one. -/
theorem dispatch_first_match (ext : MatchTest → MatchValue)
    (actions : List MatchExpr) :
    (dispatch ext actions = -1 ↔ ∀ e ∈ actions, matchActionB ext e = false)
    ∧ (∀ i (h : i < actions.length),
        matchActionB ext (actions.get ⟨i, h⟩) = true →
        (∀ j (hj : j < i),
          matchActionB ext (actions.get ⟨j, Nat.lt_trans hj h⟩) = false) →
        dispatch ext actions = (i : Int))
    ∧ (∀ i j (hi : i < actions.length) (hj : j < actions.length), i < j →
        matchActionB ext (actions.get ⟨i, hi⟩) = true →
        matchActionB ext (actions.get ⟨j, hj⟩) = true →
        0 ≤ dispatch ext actions ∧ dispatch ext actions ≤ (i : Int)) := by
  refine ⟨matchRules_none ext actions 0, ?_, ?_⟩
  · intro i h hi hprev
    have := matchRules_first ext actions 0 i h hi hprev
    simpa [dispatch] using this
  · intro i j hi hj hij hmi hmj
    have := matchRules_bounds ext actions 0 i hi hmi
    constructor
    · simpa [dispatch] using this.1
    · simpa [dispatch] using this.2

/-- Witness for C1: with rules `[false, true, true]`, the dispatcher
returns index 1 (the first matching rule, ahead of the equally-matching
rule 2), and with the single rule `[false]` it returns -1. -/
theorem dispatch_first_match_witness :
    dispatch (fun _ => ⟨MATCH_TYPE_INTEGER, 0⟩)
        [.boolTest false, .boolTest true, .boolTest true] = 1
    ∧ dispatch (fun _ => ⟨MATCH_TYPE_INTEGER, 0⟩) [.boolTest false] = -1 := by
  constructor
  · have h := (dispatch_first_match (fun _ => ⟨MATCH_TYPE_INTEGER, 0⟩)
      [.boolTest false, .boolTest true, .boolTest true]).2.1 1 (by decide)
      (by rfl) ?_
    · simpa using h
    · intro j hj
      interval_cases j
      rfl
  · exact (dispatch_first_match (fun _ => ⟨MATCH_TYPE_INTEGER, 0⟩)
      [.boolTest false]).1.mpr (by intro e he; simp at he; rw [he]; rfl)

/-! ## Locations and the reverse patch-emission walk
(e9tool.cpp lines 62-77, 1892-1914, 2640-2690) -/

/-- `Location` (lines 64-77).  The packed 48/4/1/1/10-bit fields are
modelled as plain values; the capacity limits of the packing do not
affect the emission logic. -/
structure Location where
  off : Nat
  size : Nat
  emitted : Bool
  patch : Bool
  action : Nat
deriving DecidableEq, Repr, Inhabited

def INT8_MAX : Int := 127

/-- `sendInstructionMessage` (lines 1895-1914).  Returns whether the
outward walk continues (`false` exactly when the distance to the patch
site exceeds `INT8_MAX + 2 + 15`), the updated `Location`, and the
`Instruction(addr, size, offset)` message sent, if any. -/
def sendInstructionMessage (loc : Location) (addr text_addr text_offset : Int) :
    Bool × Location × Option (Int × Nat × Int) :=
  if |text_addr + (loc.off : Int) - addr| > INT8_MAX + 2 + 15 then
    (false, loc, none)
  else if loc.emitted then
    (true, loc, none)
  else
    (true, {loc with emitted := true},
      some (text_addr + (loc.off : Int), loc.size, text_offset + (loc.off : Int)))

/-- The downward inner loop (lines 2662-2664): process indices
`j, j-1, ..., 0`, stopping at the first send that reports the window
exceeded.  Each emitted message is tagged with the index of the
`Location` it describes. -/
def walkDown (addr ta toff : Int) : Nat → List Location →
    List Location × List (Nat × Int × Nat × Int)
  | j, locs =>
    let r := sendInstructionMessage (locs.getD j default) addr ta toff
    let locs1 := locs.set j r.2.1
    let tagged : List (Nat × Int × Nat × Int) :=
      match r.2.2 with
      | none => []
      | some m => [(j, m)]
    if r.1 then
      match j with
      | 0 => (locs1, tagged)
      | Nat.succ j' =>
        let rest := walkDown addr ta toff j' locs1
        (rest.1, tagged ++ rest.2)
    else (locs1, tagged)

/-- The upward inner loop (lines 2665-2667): process indices
`j, j+1, ..., count-1`, stopping at the first send that reports the
window exceeded. -/
def walkUp (addr ta toff : Int) (j : Nat) (locs : List Location) :
    List Location × List (Nat × Int × Nat × Int) :=
  if _h : j < locs.length then
    let r := sendInstructionMessage (locs.getD j default) addr ta toff
    let locs1 := locs.set j r.2.1
    let tagged : List (Nat × Int × Nat × Int) :=
      match r.2.2 with
      | none => []
      | some m => [(j, m)]
    if r.1 then
      let rest := walkUp addr ta toff (j + 1) locs1
      (rest.1, tagged ++ rest.2)
    else (locs1, tagged)
  else (locs, [])
termination_by locs.length - j
decreasing_by simp only [List.length_set]; omega

/-- Both inner loops around patch site `i` (lines 2658-2667): the site
address is `text_addr + locs[i].offset`; walk down from `i`, then up
from `i + 1`. -/
def siteWalk (ta toff : Int) (i : Nat) (locs : List Location) :
    List Location × List (Nat × Int × Nat × Int) :=
  let addr := ta + ((locs.getD i default).off : Int)
  let d := walkDown addr ta toff i locs
  let u := walkUp addr ta toff (i + 1) d.1
  (u.1, d.2 ++ u.2)

/-- The outer reverse loop (lines 2642-2690): visit indices
`i, i-1, ..., 0`; skip non-patch locations; at each patch site run both
inner loops.  (The per-site Patch/plugin message that follows the inner
loops does not interact with `Location` state and is omitted.) -/
def patchLoop (ta toff : Int) : Nat → List Location →
    List Location × List (Nat × Int × Nat × Int)
  | i, locs =>
    let s := if (locs.getD i default).patch then siteWalk ta toff i locs
             else (locs, [])
    match i with
    | 0 => s
    | Nat.succ i' =>
      let rest := patchLoop ta toff i' s.1
      (rest.1, s.2 ++ rest.2)

/-- The whole reverse walk starting at `count - 1`. -/
def patchWalk (ta toff : Int) (locs : List Location) :
    List Location × List (Nat × Int × Nat × Int) :=
  match locs.length with
  | 0 => (locs, [])
  | Nat.succ n => patchLoop ta toff n locs

/-! ## Walk lemmas -/

lemma getD_set_self (l : List Location) (i : Nat) (a : Location)
    (h : i < l.length) : (l.set i a).getD i default = a := by
  induction l generalizing i with
  | nil => cases h
  | cons x xs ih =>
    cases i with
    | zero => rfl
    | succ n => exact ih n (by simpa using h)

lemma getD_set_other (l : List Location) (i j : Nat) (a : Location)
    (h : i ≠ j) : (l.set i a).getD j default = l.getD j default := by
  induction l generalizing i j with
  | nil => rfl
  | cons x xs ih =>
    cases i with
    | zero =>
      cases j with
      | zero => exact absurd rfl h
      | succ m => rfl
    | succ n =>
      cases j with
      | zero => rfl
      | succ m => exact ih n m (by omega)

/-- The reachability window test of `sendInstructionMessage`. -/
def inWindow (addr ta : Int) (loc : Location) : Bool :=
  |ta + (loc.off : Int) - addr| ≤ INT8_MAX + 2 + 15

lemma send_eq (loc : Location) (addr ta toff : Int) :
    sendInstructionMessage loc addr ta toff =
      (inWindow addr ta loc,
       if inWindow addr ta loc && !loc.emitted
       then {loc with emitted := true} else loc,
       if inWindow addr ta loc && !loc.emitted
       then some (ta + (loc.off : Int), loc.size, toff + (loc.off : Int))
       else none) := by
  unfold sendInstructionMessage
  by_cases h1 : |ta + (loc.off : Int) - addr| > INT8_MAX + 2 + 15
  · have hw : inWindow addr ta loc = false := by
      unfold inWindow
      simpa using h1
    rw [if_pos h1, hw]
    simp
  · have hw : inWindow addr ta loc = true := by
      unfold inWindow
      simpa using h1
    rw [if_neg h1, hw]
    by_cases h2 : loc.emitted = true
    · rw [if_pos h2]
      simp [h2]
    · have h2' : loc.emitted = false := by simpa using h2
      rw [if_neg h2]
      simp [h2']

lemma set_of_length_le (l : List Location) (i : Nat) (a : Location)
    (h : l.length ≤ i) : l.set i a = l := by
  induction l generalizing i with
  | nil => rfl
  | cons x xs ih =>
    cases i with
    | zero => simp at h
    | succ n =>
      simp only [List.set]
      rw [ih n (by simpa using h)]

lemma walkDown_length (addr ta toff : Int) :
    ∀ (j : Nat) (locs : List Location),
      (walkDown addr ta toff j locs).1.length = locs.length := by
  intro j
  induction j with
  | zero =>
    intro locs
    simp only [walkDown, send_eq]
    split <;> simp [List.length_set]
  | succ j' ih =>
    intro locs
    simp only [walkDown, send_eq]
    split
    · rw [ih]
      simp [List.length_set]
    · simp [List.length_set]

lemma walkUp_length_fuel (addr ta toff : Int) :
    ∀ (fuel j : Nat) (locs : List Location), locs.length - j ≤ fuel →
      (walkUp addr ta toff j locs).1.length = locs.length := by
  intro fuel
  induction fuel with
  | zero =>
    intro j locs hf
    rw [walkUp]
    have h : ¬ j < locs.length := by omega
    rw [dif_neg h]
  | succ f ih =>
    intro j locs hf
    rw [walkUp]
    by_cases h : j < locs.length
    · rw [dif_pos h]
      simp only [send_eq]
      split
      · rw [ih (j + 1) _ (by simp only [List.length_set]; omega)]
        simp [List.length_set]
      · simp [List.length_set]
    · rw [dif_neg h]

lemma walkUp_length (addr ta toff : Int) (j : Nat) (locs : List Location) :
    (walkUp addr ta toff j locs).1.length = locs.length :=
  walkUp_length_fuel addr ta toff locs.length j locs (by omega)

/-- One send-and-set step changes at most the visited entry, and then
only by setting its `emitted` flag. -/
lemma step_getD (locs : List Location) (j k : Nat) (c : Bool) :
    (locs.set j (if c then {locs.getD j default with emitted := true}
                 else locs.getD j default)).getD k default
        = locs.getD k default ∨
    ((locs.set j (if c then {locs.getD j default with emitted := true}
                  else locs.getD j default)).getD k default
        = {locs.getD k default with emitted := true} ∧ k = j ∧ k < locs.length) := by
  by_cases hkj : k = j
  · subst hkj
    by_cases hk : k < locs.length
    · rw [getD_set_self _ _ _ hk]
      cases c with
      | false => left; rfl
      | true => right; exact ⟨rfl, rfl, hk⟩
    · rw [set_of_length_le _ _ _ (by omega)]
      left; rfl
  · rw [getD_set_other _ _ _ _ (fun h => hkj h.symm)]
    left; rfl

lemma walkDown_getD (addr ta toff : Int) :
    ∀ (j : Nat) (locs : List Location) (k : Nat),
      (walkDown addr ta toff j locs).1.getD k default = locs.getD k default ∨
      ((walkDown addr ta toff j locs).1.getD k default =
          {locs.getD k default with emitted := true} ∧ k ≤ j ∧ k < locs.length) := by
  intro j
  induction j with
  | zero =>
    intro locs k
    simp only [walkDown, send_eq]
    split
    all_goals
      rcases step_getD locs 0 k (inWindow addr ta (locs.getD 0 default)
        && !(locs.getD 0 default).emitted) with h | ⟨h, hk, hkl⟩
    · left; exact h
    · right; exact ⟨h, by omega, hkl⟩
    · left; exact h
    · right; exact ⟨h, by omega, hkl⟩
  | succ j' ih =>
    intro locs k
    simp only [walkDown, send_eq]
    split
    · -- continue: recurse on the updated list
      rcases ih (locs.set (j' + 1)
          (if inWindow addr ta (locs.getD (j' + 1) default)
              && !(locs.getD (j' + 1) default).emitted
           then {locs.getD (j' + 1) default with emitted := true}
           else locs.getD (j' + 1) default)) k with h | ⟨h, hk, hkl⟩
      · rw [h]
        rcases step_getD locs (j' + 1) k (inWindow addr ta (locs.getD (j' + 1) default)
          && !(locs.getD (j' + 1) default).emitted) with h2 | ⟨h2, hk2, hkl2⟩
        · left; exact h2
        · right; exact ⟨h2, by omega, hkl2⟩
      · rw [h]
        rcases step_getD locs (j' + 1) k (inWindow addr ta (locs.getD (j' + 1) default)
          && !(locs.getD (j' + 1) default).emitted) with h2 | ⟨h2, hk2, hkl2⟩
        · rw [h2]
          right
          refine ⟨rfl, by omega, ?_⟩
          have := List.length_set locs (j' + 1)
            (if inWindow addr ta (locs.getD (j' + 1) default)
                && !(locs.getD (j' + 1) default).emitted
             then {locs.getD (j' + 1) default with emitted := true}
             else locs.getD (j' + 1) default)
          omega
        · rw [h2]
          right
          refine ⟨rfl, by omega, hkl2⟩
    · rcases step_getD locs (j' + 1) k (inWindow addr ta (locs.getD (j' + 1) default)
        && !(locs.getD (j' + 1) default).emitted) with h | ⟨h, hk, hkl⟩
      · left; exact h
      · right; exact ⟨h, by omega, hkl⟩

lemma walkUp_getD_fuel (addr ta toff : Int) :
    ∀ (fuel j : Nat) (locs : List Location) (k : Nat), locs.length - j ≤ fuel →
      (walkUp addr ta toff j locs).1.getD k default = locs.getD k default ∨
      ((walkUp addr ta toff j locs).1.getD k default =
          {locs.getD k default with emitted := true} ∧ j ≤ k ∧ k < locs.length) := by
  intro fuel
  induction fuel with
  | zero =>
    intro j locs k hf
    rw [walkUp]
    rw [dif_neg (by omega : ¬ j < locs.length)]
    left; rfl
  | succ f ih =>
    intro j locs k hf
    rw [walkUp]
    by_cases h : j < locs.length
    · rw [dif_pos h]
      simp only [send_eq]
      split
      · rcases ih (j + 1) (locs.set j
            (if inWindow addr ta (locs.getD j default)
                && !(locs.getD j default).emitted
             then {locs.getD j default with emitted := true}
             else locs.getD j default)) k
            (by simp only [List.length_set]; omega) with h1 | ⟨h1, hk, hkl⟩
        · rw [h1]
          rcases step_getD locs j k (inWindow addr ta (locs.getD j default)
            && !(locs.getD j default).emitted) with h2 | ⟨h2, hk2, hkl2⟩
          · left; exact h2
          · right; exact ⟨h2, by omega, hkl2⟩
        · rw [h1]
          rcases step_getD locs j k (inWindow addr ta (locs.getD j default)
            && !(locs.getD j default).emitted) with h2 | ⟨h2, hk2, hkl2⟩
          · rw [h2]
            right
            refine ⟨rfl, by omega, ?_⟩
            have := List.length_set locs j
              (if inWindow addr ta (locs.getD j default)
                  && !(locs.getD j default).emitted
               then {locs.getD j default with emitted := true}
               else locs.getD j default)
            omega
          · rw [h2]
            right
            exact ⟨rfl, by omega, hkl2⟩
      · rcases step_getD locs j k (inWindow addr ta (locs.getD j default)
          && !(locs.getD j default).emitted) with h2 | ⟨h2, hk2, hkl2⟩
        · left; exact h2
        · right; exact ⟨h2, by omega, hkl2⟩
    · rw [dif_neg h]
      left; rfl

lemma walkUp_getD (addr ta toff : Int) (j : Nat) (locs : List Location) (k : Nat) :
    (walkUp addr ta toff j locs).1.getD k default = locs.getD k default ∨
    ((walkUp addr ta toff j locs).1.getD k default =
        {locs.getD k default with emitted := true} ∧ j ≤ k ∧ k < locs.length) :=
  walkUp_getD_fuel addr ta toff locs.length j locs k (by omega)

lemma walkDown_mem_iff (addr ta toff : Int) :
    ∀ (j : Nat) (locs : List Location) (k : Nat),
      (k ∈ (walkDown addr ta toff j locs).2.map Prod.fst) ↔
      (k ≤ j ∧ (locs.getD k default).emitted = false ∧
       ∀ m, k ≤ m → m ≤ j → inWindow addr ta (locs.getD m default) = true) := by
  intro j
  induction j with
  | zero =>
    intro locs k
    by_cases hw : inWindow addr ta (locs.getD 0 default) = true
    · by_cases he : (locs.getD 0 default).emitted = true
      · simp only [walkDown, send_eq, hw, he]
        simp only [Bool.not_true, Bool.and_false, Bool.false_eq_true, if_false,
          if_true]
        constructor
        · intro h
          simp at h
        · rintro ⟨hk0, hef, _⟩
          interval_cases k
          rw [he] at hef
          cases hef
      · have he' : (locs.getD 0 default).emitted = false := by simpa using he
        simp only [walkDown, send_eq, hw, he']
        simp only [Bool.not_false, Bool.and_true, if_true]
        constructor
        · intro h
          simp at h
          subst h
          exact ⟨Nat.le_refl 0, he', by
            intro m hm hm0
            interval_cases m
            exact hw⟩
        · rintro ⟨hk0, _, _⟩
          interval_cases k
          simp
    · have hw' : inWindow addr ta (locs.getD 0 default) = false := by simpa using hw
      simp only [walkDown, send_eq, hw']
      simp only [Bool.false_and, Bool.false_eq_true, if_false]
      constructor
      · intro h
        simp at h
      · rintro ⟨hk0, _, hall⟩
        interval_cases k
        rw [hall 0 (Nat.le_refl 0) (Nat.le_refl 0)] at hw'
        cases hw'
  | succ j' ih =>
    intro locs k
    set locJ := locs.getD (j' + 1) default with hlocJ
    by_cases hw : inWindow addr ta locJ = true
    · by_cases he : locJ.emitted = true
      · -- already emitted: no tagged message for j'+1
        simp only [walkDown, send_eq, ← hlocJ, hw, he]
        simp only [Bool.not_true, Bool.and_false, Bool.false_eq_true, if_false,
          if_true]
        constructor
        · intro h
          simp only [List.map_append, List.mem_append] at h
          rcases h with h | h
          · simp at h
          · have := (ih _ k).mp h
            rcases this with ⟨hk, hem, hall⟩
            have hlocs1 : ∀ m, m ≤ j' →
                ((locs.set (j' + 1) locJ).getD m default) = locs.getD m default := by
              intro m hm
              exact getD_set_other _ _ _ _ (by omega)
            refine ⟨by omega, ?_, ?_⟩
            · rw [hlocs1 k hk] at hem
              exact hem
            · intro m hm hmj
              by_cases hmJ : m = j' + 1
              · subst hmJ
                exact hw
              · have hm' : m ≤ j' := by omega
                have := hall m hm hm'
                rw [hlocs1 m hm'] at this
                exact this
        · rintro ⟨hk, hem, hall⟩
          simp only [List.map_append, List.mem_append]
          right
          by_cases hkJ : k = j' + 1
          · subst hkJ
            rw [he] at hem
            cases hem
          · have hk' : k ≤ j' := by omega
            refine (ih _ k).mpr ⟨hk', ?_, ?_⟩
            · rw [getD_set_other _ _ _ _ (by omega)]
              exact hem
            · intro m hm hmj
              rw [getD_set_other _ _ _ _ (by omega)]
              exact hall m hm (by omega)
      · have he' : locJ.emitted = false := by simpa using he
        simp only [walkDown, send_eq, ← hlocJ, hw, he']
        simp only [Bool.not_false, Bool.and_true, Bool.false_eq_true, if_false,
          if_true]
        have hlocs1 : ∀ m, m ≤ j' →
            ((locs.set (j' + 1) {locJ with emitted := true}).getD m default) =
              locs.getD m default := by
          intro m hm
          exact getD_set_other _ _ _ _ (by omega)
        constructor
        · intro h
          simp only [List.map_append, List.mem_append] at h
          rcases h with h | h
          · simp at h
            subst h
            refine ⟨Nat.le_refl _, he', ?_⟩
            intro m hm hmj
            have : m = j' + 1 := by omega
            subst this
            exact hw
          · have := (ih _ k).mp h
            rcases this with ⟨hk, hem, hall⟩
            refine ⟨by omega, ?_, ?_⟩
            · rw [hlocs1 k hk] at hem
              exact hem
            · intro m hm hmj
              by_cases hmJ : m = j' + 1
              · subst hmJ
                exact hw
              · have hm' : m ≤ j' := by omega
                have := hall m hm hm'
                rw [hlocs1 m hm'] at this
                exact this
        · rintro ⟨hk, hem, hall⟩
          simp only [List.map_append, List.mem_append]
          by_cases hkJ : k = j' + 1
          · left
            simp [hkJ]
          · right
            have hk' : k ≤ j' := by omega
            refine (ih _ k).mpr ⟨hk', ?_, ?_⟩
            · rw [hlocs1 k hk']
              exact hem
            · intro m hm hmj
              rw [hlocs1 m hmj]
              exact hall m hm (by omega)
    · have hw' : inWindow addr ta locJ = false := by simpa using hw
      simp only [walkDown, send_eq, ← hlocJ, hw']
      simp only [Bool.false_and, Bool.false_eq_true, if_false]
      constructor
      · intro h
        simp at h
      · rintro ⟨hk, hem, hall⟩
        have := hall (j' + 1) (by omega) (Nat.le_refl _)
        rw [this] at hw'
        cases hw'

lemma walkUp_mem_iff_fuel (addr ta toff : Int) :
    ∀ (fuel j : Nat) (locs : List Location) (k : Nat), locs.length - j ≤ fuel →
      ((k ∈ (walkUp addr ta toff j locs).2.map Prod.fst) ↔
       (j ≤ k ∧ k < locs.length ∧ (locs.getD k default).emitted = false ∧
        ∀ m, j ≤ m → m ≤ k → inWindow addr ta (locs.getD m default) = true)) := by
  intro fuel
  induction fuel with
  | zero =>
    intro j locs k hf
    rw [walkUp, dif_neg (by omega : ¬ j < locs.length)]
    constructor
    · intro h
      simp at h
    · rintro ⟨hjk, hkl, _, _⟩
      omega
  | succ f ih =>
    intro j locs k hf
    rw [walkUp]
    by_cases hj : j < locs.length
    · rw [dif_pos hj]
      set locJ := locs.getD j default with hlocJ
      by_cases hw : inWindow addr ta locJ = true
      · by_cases he : locJ.emitted = true
        · simp only [send_eq, ← hlocJ, hw, he]
          simp only [Bool.not_true, Bool.and_false, Bool.false_eq_true, if_false,
            if_true]
          have hlen1 : (locs.set j locJ).length = locs.length :=
            List.length_set locs j locJ
          have hrest := ih (j + 1) (locs.set j locJ) k (by omega)
          simp only [List.nil_append]
          rw [hrest]
          have hgd : ∀ m, j + 1 ≤ m →
              (locs.set j locJ).getD m default = locs.getD m default := by
            intro m hm
            exact getD_set_other _ _ _ _ (by omega)
          constructor
          · rintro ⟨hjk, hkl, hem, hall⟩
            rw [hgd k hjk] at hem
            refine ⟨by omega, by omega, hem, ?_⟩
            intro m hm hmk
            by_cases hmj : m = j
            · subst hmj
              exact hw
            · have hm' : j + 1 ≤ m := by omega
              have := hall m hm' hmk
              rw [hgd m hm'] at this
              exact this
          · rintro ⟨hjk, hkl, hem, hall⟩
            by_cases hkj : k = j
            · subst hkj
              rw [he] at hem
              cases hem
            · have hk' : j + 1 ≤ k := by omega
              refine ⟨hk', by omega, ?_, ?_⟩
              · rw [hgd k hk']
                exact hem
              · intro m hm hmk
                rw [hgd m hm]
                exact hall m (by omega) hmk
        · have he' : locJ.emitted = false := by simpa using he
          simp only [send_eq, ← hlocJ, hw, he']
          simp only [Bool.not_false, Bool.and_true, Bool.false_eq_true, if_false,
            if_true]
          have hlen1 : (locs.set j {locJ with emitted := true}).length = locs.length :=
            List.length_set locs j _
          have hrest := ih (j + 1) (locs.set j {locJ with emitted := true}) k
            (by omega)
          have hgd : ∀ m, j + 1 ≤ m →
              (locs.set j {locJ with emitted := true}).getD m default =
                locs.getD m default := by
            intro m hm
            exact getD_set_other _ _ _ _ (by omega)
          simp only [List.map_append, List.mem_append]
          rw [hrest]
          constructor
          · intro h
            rcases h with h | ⟨hjk, hkl, hem, hall⟩
            · simp at h
              refine ⟨by omega, by omega, by rw [h]; exact he', ?_⟩
              intro m hm hmk
              have hmj : m = j := by omega
              rw [hmj]
              exact hw
            · rw [hgd k hjk] at hem
              refine ⟨by omega, by omega, hem, ?_⟩
              intro m hm hmk
              by_cases hmj : m = j
              · subst hmj
                exact hw
              · have hm' : j + 1 ≤ m := by omega
                have := hall m hm' hmk
                rw [hgd m hm'] at this
                exact this
          · rintro ⟨hjk, hkl, hem, hall⟩
            by_cases hkj : k = j
            · left
              simp [hkj]
            · right
              have hk' : j + 1 ≤ k := by omega
              refine ⟨hk', by omega, ?_, ?_⟩
              · rw [hgd k hk']
                exact hem
              · intro m hm hmk
                rw [hgd m hm]
                exact hall m (by omega) hmk
      · have hw' : inWindow addr ta locJ = false := by simpa using hw
        simp only [send_eq, ← hlocJ, hw']
        simp only [Bool.false_and, Bool.false_eq_true, if_false]
        constructor
        · intro h
          simp at h
        · rintro ⟨hjk, hkl, hem, hall⟩
          rw [hall j (Nat.le_refl j) hjk] at hw'
          cases hw'
    · rw [dif_neg hj]
      constructor
      · intro h
        simp at h
      · rintro ⟨hjk, hkl, _, _⟩
        omega

lemma walkUp_mem_iff (addr ta toff : Int) (j : Nat) (locs : List Location) (k : Nat) :
    (k ∈ (walkUp addr ta toff j locs).2.map Prod.fst) ↔
    (j ≤ k ∧ k < locs.length ∧ (locs.getD k default).emitted = false ∧
     ∀ m, j ≤ m → m ≤ k → inWindow addr ta (locs.getD m default) = true) :=
  walkUp_mem_iff_fuel addr ta toff locs.length j locs k (by omega)

lemma walkDown_getD_above (addr ta toff : Int) (j : Nat) (locs : List Location)
    (k : Nat) (h : j < k) :
    (walkDown addr ta toff j locs).1.getD k default = locs.getD k default := by
  rcases walkDown_getD addr ta toff j locs k with h1 | ⟨_, hk, _⟩
  · exact h1
  · omega

/-- C2: around a patch site at index `i` (address `ta + locs[i].off`),
with the location offsets in disassembly order, a location `k` gets an
Instruction message from this site's inner loops exactly when its
address is within `INT8_MAX + 2 + 15` bytes of the site's address and
its sticky `emitted` flag is not yet set; the outward walk in each
direction stops at the first location outside the window, which under
the ordering hypothesis excludes exactly the out-of-window locations. -/
theorem reachability_window (ta toff : Int) (locs : List Location) (i k : Nat)
    (hmono : ∀ a b, a ≤ b → b < locs.length →
      (locs.getD a default).off ≤ (locs.getD b default).off)
    (hi : i < locs.length) (hk : k < locs.length) :
    (k ∈ (siteWalk ta toff i locs).2.map Prod.fst) ↔
    (|(ta + ((locs.getD k default).off : Int)) -
        (ta + ((locs.getD i default).off : Int))| ≤ INT8_MAX + 2 + 15 ∧
      (locs.getD k default).emitted = false) := by
  set addr := ta + ((locs.getD i default).off : Int) with haddr
  have hwin : ∀ m, (inWindow addr ta (locs.getD m default) = true) ↔
      |(ta + ((locs.getD m default).off : Int)) - addr| ≤ INT8_MAX + 2 + 15 := by
    intro m
    simp [inWindow]
  have hd1 : ∀ m, i + 1 ≤ m →
      (walkDown addr ta toff i locs).1.getD m default = locs.getD m default := by
    intro m hm
    exact walkDown_getD_above addr ta toff i locs m (by omega)
  have hdlen : (walkDown addr ta toff i locs).1.length = locs.length :=
    walkDown_length addr ta toff i locs
  have hmem : (k ∈ (siteWalk ta toff i locs).2.map Prod.fst) ↔
      (k ∈ (walkDown addr ta toff i locs).2.map Prod.fst ∨
       k ∈ (walkUp addr ta toff (i + 1) (walkDown addr ta toff i locs).1).2.map
          Prod.fst) := by
    simp only [siteWalk, ← haddr, List.map_append, List.mem_append]
  rw [hmem]
  have hdown := walkDown_mem_iff addr ta toff i locs k
  have hup := walkUp_mem_iff addr ta toff (i + 1)
    (walkDown addr ta toff i locs).1 k
  constructor
  · intro h
    rcases h with h | h
    · obtain ⟨hki, hem, hall⟩ := hdown.mp h
      exact ⟨(hwin k).mp (hall k (Nat.le_refl k) hki), hem⟩
    · obtain ⟨hik, hkl, hem, hall⟩ := hup.mp h
      rw [hd1 k hik] at hem
      have := hall k (by omega) (Nat.le_refl k)
      rw [hd1 k hik] at this
      exact ⟨(hwin k).mp this, hem⟩
  · rintro ⟨habs, hem⟩
    by_cases hki : k ≤ i
    · left
      refine hdown.mpr ⟨hki, hem, ?_⟩
      intro m hm hmi
      rw [hwin m]
      have h1 : (locs.getD k default).off ≤ (locs.getD m default).off :=
        hmono k m hm (by omega)
      have h2 : (locs.getD m default).off ≤ (locs.getD i default).off :=
        hmono m i hmi hi
      rw [haddr] at habs ⊢
      rw [abs_le] at habs ⊢
      omega
    · right
      have hik : i + 1 ≤ k := by omega
      refine hup.mpr ⟨hik, by omega, ?_, ?_⟩
      · rw [hd1 k hik]
        exact hem
      · intro m hm hmk
        rw [hd1 m hm, hwin m]
        have h1 : (locs.getD i default).off ≤ (locs.getD m default).off :=
          hmono i m (by omega) (by omega)
        have h2 : (locs.getD m default).off ≤ (locs.getD k default).off :=
          hmono m k hmk hk
        rw [haddr] at habs ⊢
        rw [abs_le] at habs ⊢
        omega

lemma mono3 (l0 l1 l2 : Location) (h01 : l0.off ≤ l1.off)
    (h12 : l1.off ≤ l2.off) :
    ∀ a b, a ≤ b → b < ([l0, l1, l2] : List Location).length →
      (([l0, l1, l2] : List Location).getD a default).off ≤
        (([l0, l1, l2] : List Location).getD b default).off := by
  intro a b hab hb
  have hb3 : b < 3 := by simpa using hb
  interval_cases b <;> interval_cases a <;> simp [List.getD] <;> omega

/-- Witness for C2: three locations at offsets 0, 100, 200; the site at
index 1 emits messages for itself and both neighbours (distances 100 ≤
144), and with offsets 0, 200, 400 it emits only its own message. -/
theorem reachability_window_witness :
    ((1 : Nat) ∈ (siteWalk 4096 64 1
        [⟨0, 4, false, false, 0⟩, ⟨100, 4, false, true, 0⟩,
         ⟨200, 4, false, false, 0⟩]).2.map Prod.fst
      ∧ (0 : Nat) ∈ (siteWalk 4096 64 1
        [⟨0, 4, false, false, 0⟩, ⟨100, 4, false, true, 0⟩,
         ⟨200, 4, false, false, 0⟩]).2.map Prod.fst)
    ∧ ¬ ((2 : Nat) ∈ (siteWalk 4096 64 1
        [⟨0, 4, false, false, 0⟩, ⟨200, 4, false, true, 0⟩,
         ⟨400, 4, false, false, 0⟩]).2.map Prod.fst) := by
  refine ⟨⟨?_, ?_⟩, ?_⟩
  · exact (reachability_window 4096 64
      [⟨0, 4, false, false, 0⟩, ⟨100, 4, false, true, 0⟩,
       ⟨200, 4, false, false, 0⟩] 1 1
      (mono3 _ _ _ (by decide) (by decide)) (by decide) (by decide)).mpr (by constructor <;> decide)
  · exact (reachability_window 4096 64
      [⟨0, 4, false, false, 0⟩, ⟨100, 4, false, true, 0⟩,
       ⟨200, 4, false, false, 0⟩] 1 0
      (mono3 _ _ _ (by decide) (by decide)) (by decide) (by decide)).mpr (by constructor <;> decide)
  · intro h
    have := (reachability_window 4096 64
      [⟨0, 4, false, false, 0⟩, ⟨200, 4, false, true, 0⟩,
       ⟨400, 4, false, false, 0⟩] 1 2
      (mono3 _ _ _ (by decide) (by decide)) (by decide) (by decide)).mp h
    rcases this with ⟨habs, _⟩
    norm_num [INT8_MAX] at habs

lemma walkDown_emitted_mono (addr ta toff : Int) (j : Nat) (locs : List Location)
    (k : Nat) (h : (locs.getD k default).emitted = true) :
    ((walkDown addr ta toff j locs).1.getD k default).emitted = true := by
  rcases walkDown_getD addr ta toff j locs k with h1 | ⟨h1, _, _⟩
  · rw [h1]; exact h
  · rw [h1]

lemma walkUp_emitted_mono (addr ta toff : Int) (j : Nat) (locs : List Location)
    (k : Nat) (h : (locs.getD k default).emitted = true) :
    ((walkUp addr ta toff j locs).1.getD k default).emitted = true := by
  rcases walkUp_getD addr ta toff j locs k with h1 | ⟨h1, _, _⟩
  · rw [h1]; exact h
  · rw [h1]

lemma walkDown_msg_sets (addr ta toff : Int) :
    ∀ (j : Nat) (locs : List Location) (k : Nat), j < locs.length →
      k ∈ (walkDown addr ta toff j locs).2.map Prod.fst →
      ((walkDown addr ta toff j locs).1.getD k default).emitted = true := by
  intro j
  induction j with
  | zero =>
    intro locs k hj hmem
    obtain ⟨hk0, hem, hall⟩ := (walkDown_mem_iff addr ta toff 0 locs k).mp hmem
    have hk : k = 0 := by omega
    subst hk
    have hw := hall 0 (Nat.le_refl 0) (Nat.le_refl 0)
    simp only [walkDown, send_eq, hw, hem]
    simp only [Bool.not_false, Bool.and_true, if_true]
    rw [getD_set_self _ _ _ hj]
  | succ j' ih =>
    intro locs k hj hmem
    obtain ⟨hkj, hem, hall⟩ :=
      (walkDown_mem_iff addr ta toff (j' + 1) locs k).mp hmem
    have hw : inWindow addr ta (locs.getD (j' + 1) default) = true :=
      hall (j' + 1) (by omega) (Nat.le_refl _)
    by_cases he : (locs.getD (j' + 1) default).emitted = true
    · simp only [walkDown, send_eq, hw, he, Bool.not_true, Bool.and_false,
        Bool.false_eq_true, if_false, if_true] at hmem ⊢
      simp only [List.nil_append] at hmem ⊢
      exact ih _ k (by simp only [List.length_set]; omega) hmem
    · have he' : (locs.getD (j' + 1) default).emitted = false := by simpa using he
      simp only [walkDown, send_eq, hw, he', Bool.not_false, Bool.and_true,
        if_true] at hmem ⊢
      simp only [List.map_append, List.mem_append] at hmem
      rcases hmem with hmem | hmem
      · simp at hmem
        subst hmem
        apply walkDown_emitted_mono
        rw [getD_set_self _ _ _ hj]
      · exact ih _ k (by simp only [List.length_set]; omega) hmem

lemma walkUp_msg_sets_fuel (addr ta toff : Int) :
    ∀ (fuel j : Nat) (locs : List Location) (k : Nat), locs.length - j ≤ fuel →
      k ∈ (walkUp addr ta toff j locs).2.map Prod.fst →
      ((walkUp addr ta toff j locs).1.getD k default).emitted = true := by
  intro fuel
  induction fuel with
  | zero =>
    intro j locs k hf hmem
    rw [walkUp, dif_neg (by omega : ¬ j < locs.length)] at hmem
    simp at hmem
  | succ f ih =>
    intro j locs k hf hmem
    rw [walkUp] at hmem ⊢
    by_cases hj : j < locs.length
    · rw [dif_pos hj] at hmem ⊢
      obtain ⟨hjk, hkl, hem, hall⟩ := (walkUp_mem_iff addr ta toff j locs k).mp
        (by rw [walkUp, dif_pos hj]; exact hmem)
      have hw : inWindow addr ta (locs.getD j default) = true :=
        hall j (Nat.le_refl j) hjk
      by_cases he : (locs.getD j default).emitted = true
      · simp only [send_eq, hw, he, Bool.not_true, Bool.and_false,
          Bool.false_eq_true, if_false, if_true] at hmem ⊢
        simp only [List.nil_append] at hmem ⊢
        exact ih (j + 1) _ k (by simp only [List.length_set]; omega) hmem
      · have he' : (locs.getD j default).emitted = false := by simpa using he
        simp only [send_eq, hw, he', Bool.not_false, Bool.and_true,
          if_true] at hmem ⊢
        simp only [List.map_append, List.mem_append] at hmem
        rcases hmem with hmem | hmem
        · simp at hmem
          have hkj2 : k = j := hmem
          subst hkj2
          apply walkUp_emitted_mono
          rw [getD_set_self _ _ _ hj]
        · exact ih (j + 1) _ k (by simp only [List.length_set]; omega) hmem
    · rw [dif_neg hj] at hmem
      simp at hmem

lemma walkUp_msg_sets (addr ta toff : Int) (j : Nat) (locs : List Location)
    (k : Nat) :
    k ∈ (walkUp addr ta toff j locs).2.map Prod.fst →
    ((walkUp addr ta toff j locs).1.getD k default).emitted = true :=
  walkUp_msg_sets_fuel addr ta toff locs.length j locs k (by omega)

lemma walkDown_nodup (addr ta toff : Int) :
    ∀ (j : Nat) (locs : List Location),
      ((walkDown addr ta toff j locs).2.map Prod.fst).Nodup := by
  intro j
  induction j with
  | zero =>
    intro locs
    simp only [walkDown, send_eq]
    split
    all_goals
      rcases hc : (inWindow addr ta (locs.getD 0 default)
        && !(locs.getD 0 default).emitted) with _ | _ <;> simp [hc]
  | succ j' ih =>
    intro locs
    by_cases hw : inWindow addr ta (locs.getD (j' + 1) default) = true
    · by_cases he : (locs.getD (j' + 1) default).emitted = true
      · simp only [walkDown, send_eq, hw, he, Bool.not_true, Bool.and_false,
          Bool.false_eq_true, if_false, if_true]
        simp only [List.nil_append]
        exact ih _
      · have he' : (locs.getD (j' + 1) default).emitted = false := by
          simpa using he
        simp only [walkDown, send_eq, hw, he', Bool.not_false, Bool.and_true,
          if_true]
        simp only [List.map_append, List.map_cons, List.map_nil,
          List.singleton_append, List.nodup_cons]
        refine ⟨?_, ih _⟩
        intro hmem
        obtain ⟨hk, _, _⟩ := (walkDown_mem_iff addr ta toff j' _ (j' + 1)).mp hmem
        omega
    · have hw' : inWindow addr ta (locs.getD (j' + 1) default) = false := by
        simpa using hw
      simp only [walkDown, send_eq, hw', Bool.false_and, Bool.false_eq_true,
        if_false]
      simp

lemma walkUp_nodup_fuel (addr ta toff : Int) :
    ∀ (fuel j : Nat) (locs : List Location), locs.length - j ≤ fuel →
      ((walkUp addr ta toff j locs).2.map Prod.fst).Nodup := by
  intro fuel
  induction fuel with
  | zero =>
    intro j locs hf
    rw [walkUp, dif_neg (by omega : ¬ j < locs.length)]
    simp
  | succ f ih =>
    intro j locs hf
    rw [walkUp]
    by_cases hj : j < locs.length
    · rw [dif_pos hj]
      by_cases hw : inWindow addr ta (locs.getD j default) = true
      · by_cases he : (locs.getD j default).emitted = true
        · simp only [send_eq, hw, he, Bool.not_true, Bool.and_false,
            Bool.false_eq_true, if_false, if_true]
          simp only [List.nil_append]
          exact ih (j + 1) _ (by simp only [List.length_set]; omega)
        · have he' : (locs.getD j default).emitted = false := by simpa using he
          simp only [send_eq, hw, he', Bool.not_false, Bool.and_true, if_true]
          simp only [List.map_append, List.map_cons, List.map_nil,
            List.singleton_append, List.nodup_cons]
          refine ⟨?_, ih (j + 1) _ (by simp only [List.length_set]; omega)⟩
          intro hmem
          obtain ⟨hk, _, _⟩ := (walkUp_mem_iff addr ta toff (j + 1) _ j).mp hmem
          omega
      · have hw' : inWindow addr ta (locs.getD j default) = false := by
          simpa using hw
        simp only [send_eq, hw', Bool.false_and, Bool.false_eq_true, if_false]
        simp
    · rw [dif_neg hj]
      simp

lemma walkUp_nodup (addr ta toff : Int) (j : Nat) (locs : List Location) :
    ((walkUp addr ta toff j locs).2.map Prod.fst).Nodup :=
  walkUp_nodup_fuel addr ta toff locs.length j locs (by omega)

lemma siteWalk_length (ta toff : Int) (i : Nat) (locs : List Location) :
    (siteWalk ta toff i locs).1.length = locs.length := by
  simp only [siteWalk]
  rw [walkUp_length, walkDown_length]

lemma siteWalk_emitted_mono (ta toff : Int) (i : Nat) (locs : List Location)
    (k : Nat) (h : (locs.getD k default).emitted = true) :
    ((siteWalk ta toff i locs).1.getD k default).emitted = true := by
  simp only [siteWalk]
  exact walkUp_emitted_mono _ _ _ _ _ _ (walkDown_emitted_mono _ _ _ _ _ _ h)

lemma siteWalk_pre_not_in (ta toff : Int) (i : Nat) (locs : List Location)
    (k : Nat) (h : (locs.getD k default).emitted = true) :
    k ∉ (siteWalk ta toff i locs).2.map Prod.fst := by
  simp only [siteWalk, List.map_append, List.mem_append]
  rintro (hmem | hmem)
  · obtain ⟨_, hem, _⟩ := (walkDown_mem_iff _ _ _ _ _ _).mp hmem
    rw [h] at hem
    cases hem
  · obtain ⟨_, _, hem, _⟩ := (walkUp_mem_iff _ _ _ _ _ _).mp hmem
    rw [walkDown_emitted_mono _ _ _ _ _ _ h] at hem
    cases hem

lemma siteWalk_msg_sets (ta toff : Int) (i : Nat) (locs : List Location)
    (hi : i < locs.length) (k : Nat)
    (hmem : k ∈ (siteWalk ta toff i locs).2.map Prod.fst) :
    ((siteWalk ta toff i locs).1.getD k default).emitted = true := by
  simp only [siteWalk, List.map_append, List.mem_append] at hmem ⊢
  rcases hmem with hmem | hmem
  · exact walkUp_emitted_mono _ _ _ _ _ _
      (walkDown_msg_sets _ _ _ _ _ _ hi hmem)
  · exact walkUp_msg_sets _ _ _ _ _ _ hmem

lemma siteWalk_nodup (ta toff : Int) (i : Nat) (locs : List Location)
    (hi : i < locs.length) :
    ((siteWalk ta toff i locs).2.map Prod.fst).Nodup := by
  simp only [siteWalk, List.map_append]
  rw [List.nodup_append]
  refine ⟨walkDown_nodup _ _ _ _ _, walkUp_nodup _ _ _ _ _, ?_⟩
  intro k hk1 hk2
  have hem := walkDown_msg_sets _ _ _ _ _ _ hi hk1
  obtain ⟨_, _, hem2, _⟩ := (walkUp_mem_iff _ _ _ _ _ _).mp hk2
  rw [hem] at hem2
  cases hem2

lemma patchLoop_zero (ta toff : Int) (locs : List Location) :
    patchLoop ta toff 0 locs =
      (if (locs.getD 0 default).patch then siteWalk ta toff 0 locs
       else (locs, [])) := rfl

lemma patchLoop_step (ta toff : Int) (i' : Nat) (locs : List Location) :
    patchLoop ta toff (i' + 1) locs =
      ((patchLoop ta toff i'
          (if (locs.getD (i' + 1) default).patch
           then siteWalk ta toff (i' + 1) locs else (locs, [])).1).1,
       (if (locs.getD (i' + 1) default).patch
        then siteWalk ta toff (i' + 1) locs else (locs, [])).2 ++
         (patchLoop ta toff i'
           (if (locs.getD (i' + 1) default).patch
            then siteWalk ta toff (i' + 1) locs else (locs, [])).1).2) := rfl

lemma patchLoop_length (ta toff : Int) :
    ∀ (i : Nat) (locs : List Location),
      (patchLoop ta toff i locs).1.length = locs.length := by
  intro i
  induction i with
  | zero =>
    intro locs
    rw [patchLoop_zero]
    split
    · exact siteWalk_length _ _ _ _
    · rfl
  | succ i' ih =>
    intro locs
    rw [patchLoop_step]
    dsimp only
    rw [ih]
    split
    · exact siteWalk_length _ _ _ _
    · rfl

lemma patchLoop_emitted_mono (ta toff : Int) :
    ∀ (i : Nat) (locs : List Location) (k : Nat),
      (locs.getD k default).emitted = true →
      ((patchLoop ta toff i locs).1.getD k default).emitted = true := by
  intro i
  induction i with
  | zero =>
    intro locs k h
    rw [patchLoop_zero]
    split
    · exact siteWalk_emitted_mono _ _ _ _ _ h
    · exact h
  | succ i' ih =>
    intro locs k h
    rw [patchLoop_step]
    dsimp only
    apply ih
    split
    · exact siteWalk_emitted_mono _ _ _ _ _ h
    · exact h

lemma patchLoop_pre_not_in (ta toff : Int) :
    ∀ (i : Nat) (locs : List Location) (k : Nat),
      (locs.getD k default).emitted = true →
      k ∉ (patchLoop ta toff i locs).2.map Prod.fst := by
  intro i
  induction i with
  | zero =>
    intro locs k h
    rw [patchLoop_zero]
    split
    · exact siteWalk_pre_not_in _ _ _ _ _ h
    · simp
  | succ i' ih =>
    intro locs k h
    rw [patchLoop_step]
    dsimp only
    simp only [List.map_append, List.mem_append]
    rintro (hmem | hmem)
    · revert hmem
      split
      · exact siteWalk_pre_not_in _ _ _ _ _ h
      · simp
    · revert hmem
      apply ih
      split
      · exact siteWalk_emitted_mono _ _ _ _ _ h
      · exact h

lemma patchLoop_msg_sets (ta toff : Int) :
    ∀ (i : Nat) (locs : List Location), i < locs.length → ∀ (k : Nat),
      k ∈ (patchLoop ta toff i locs).2.map Prod.fst →
      ((patchLoop ta toff i locs).1.getD k default).emitted = true := by
  intro i
  induction i with
  | zero =>
    intro locs hi k hmem
    rw [patchLoop_zero] at hmem ⊢
    revert hmem
    split
    · exact siteWalk_msg_sets _ _ _ _ hi _
    · simp
  | succ i' ih =>
    intro locs hi k hmem
    rw [patchLoop_step] at hmem ⊢
    dsimp only at hmem ⊢
    simp only [List.map_append, List.mem_append] at hmem
    have hslen : (if (locs.getD (i' + 1) default).patch
        then siteWalk ta toff (i' + 1) locs else (locs, [])).1.length =
        locs.length := by
      split
      · exact siteWalk_length _ _ _ _
      · rfl
    rcases hmem with hmem | hmem
    · apply patchLoop_emitted_mono
      revert hmem
      split
      · exact siteWalk_msg_sets _ _ _ _ hi _
      · simp
    · exact ih _ (by omega) k hmem

lemma patchLoop_nodup (ta toff : Int) :
    ∀ (i : Nat) (locs : List Location), i < locs.length →
      ((patchLoop ta toff i locs).2.map Prod.fst).Nodup := by
  intro i
  induction i with
  | zero =>
    intro locs hi
    rw [patchLoop_zero]
    split
    · exact siteWalk_nodup _ _ _ _ hi
    · simp
  | succ i' ih =>
    intro locs hi
    rw [patchLoop_step]
    dsimp only
    simp only [List.map_append]
    rw [List.nodup_append]
    have hslen : (if (locs.getD (i' + 1) default).patch
        then siteWalk ta toff (i' + 1) locs else (locs, [])).1.length =
        locs.length := by
      split
      · exact siteWalk_length _ _ _ _
      · rfl
    refine ⟨?_, ih _ (by omega), ?_⟩
    · split
      · exact siteWalk_nodup _ _ _ _ hi
      · simp
    · intro k hk1 hk2
      have hem : ((if (locs.getD (i' + 1) default).patch
          then siteWalk ta toff (i' + 1) locs
          else (locs, [])).1.getD k default).emitted = true := by
        revert hk1
        split
        · exact siteWalk_msg_sets _ _ _ _ hi _
        · simp
      exact patchLoop_pre_not_in ta toff i' _ k hem hk2

/-- C3: across the entire reverse patch-emission walk, each `Location`
is serialized to an Instruction message at most once: a location whose
sticky `emitted` flag is already set is never emitted again, and the
message stream of the whole walk names each location index at most once
(no duplicates). -/
theorem idempotent_emission (ta toff : Int) (locs : List Location) :
    (∀ k, (locs.getD k default).emitted = true →
      k ∉ (patchWalk ta toff locs).2.map Prod.fst)
    ∧ ((patchWalk ta toff locs).2.map Prod.fst).Nodup := by
  unfold patchWalk
  rcases hlen : locs.length with _ | n
  · constructor
    · intro k _ h
      simp at h
    · simp
  · constructor
    · intro k h
      exact patchLoop_pre_not_in ta toff n locs k h
    · exact patchLoop_nodup ta toff n locs (by omega)

/-- Witness for C3: a three-location walk (sites at indices 0 and 2,
index 1 pre-emitted) produces a duplicate-free message stream that
skips the pre-emitted location. -/
theorem idempotent_emission_witness :
    ((1 : Nat) ∉ (patchWalk 4096 64
        [⟨0, 4, false, true, 0⟩, ⟨30, 4, true, false, 0⟩,
         ⟨60, 4, false, true, 0⟩]).2.map Prod.fst)
    ∧ ((patchWalk 4096 64
        [⟨0, 4, false, true, 0⟩, ⟨30, 4, true, false, 0⟩,
         ⟨60, 4, false, true, 0⟩]).2.map Prod.fst).Nodup := by
  constructor
  · exact (idempotent_emission 4096 64
      [⟨0, 4, false, true, 0⟩, ⟨30, 4, true, false, 0⟩,
       ⟨60, 4, false, true, 0⟩]).1 1 rfl
  · exact (idempotent_emission 4096 64
      [⟨0, 4, false, true, 0⟩, ⟨30, 4, true, false, 0⟩,
       ⟨60, 4, false, true, 0⟩]).2

/-! ## Plugin loading (e9tool.cpp lines 386-430) -/

/-- Which of the five `e9_plugin_*_v1` entry points a shared object
exports (`dlsym` returning non-null at lines 413-418). -/
structure PluginSyms where
  initFunc : Bool
  instrFunc : Bool
  matchFunc : Bool
  patchFunc : Bool
  finiFunc : Bool
deriving DecidableEq, Repr

/-- The fatal-error condition of `openPlugin` (lines 419-425): the
source tests `initFunc`, `instrFunc`, `patchFunc` and `finiFunc` against
`nullptr`; `matchFunc`, resolved at line 415, is not consulted. -/
def openPluginFails (s : PluginSyms) : Bool :=
  !s.initFunc && !s.instrFunc && !s.patchFunc && !s.finiFunc

/-- C8 (code bug): a shared object exporting only `e9_plugin_match_v1`
is rejected by `openPlugin` with "does not export any plugin API
functions", although the match entry point — one of the five plugin API
functions, resolved two lines above the check — is present.  The claim
(fatal error iff none of the five is present) is what the error message
itself describes, but the check omits `matchFunc`. -/
theorem openPlugin_match_only_rejected :
    openPluginFails ⟨false, false, true, false, false⟩ = true
    ∧ (⟨false, false, true, false, false⟩ : PluginSyms).matchFunc = true := by
  constructor <;> rfl

/-- The check `openPlugin` actually performs: the load fails exactly
when `init`, `instr`, `patch` and `fini` are all absent, regardless of
`match`. -/
lemma openPluginFails_spec (s : PluginSyms) :
    openPluginFails s = (!s.initFunc && !s.instrFunc && !s.patchFunc &&
      !s.finiFunc) := rfl

/-! ## Memory-operand validation (e9tool.cpp lines 900-1063) -/

/-- The registers distinguished by `parseMemOp`'s validation switches;
`other` stands for any register outside those case lists. -/
inductive Register where
  | none | rax | rcx | rdx | rbx | rsp | rbp | rsi | rdi
  | r8 | r9 | r10 | r11 | r12 | r13 | r14 | r15 | rip
  | eax | ecx | edx | ebx | esp | ebp | esi | edi
  | r8d | r9d | r10d | r11d | r12d | r13d | r14d | r15d
  | es | cs | ss | ds | fs | gs
  | other
deriving DecidableEq, Repr

/-- The segment-register case list (lines 995-1000). -/
def validSeg : Register → Bool
  | .none | .es | .cs | .ss | .ds | .fs | .gs => true
  | _ => false

/-- The base-register case list (lines 1006-1026). -/
def validBase : Register → Bool
  | .none | .rax | .rcx | .rdx | .rbx | .rsp | .rbp | .rsi | .rdi
  | .r8 | .r9 | .r10 | .r11 | .r12 | .r13 | .r14 | .r15 | .rip
  | .eax | .ecx | .edx | .ebx | .esp | .ebp | .esi | .edi
  | .r8d | .r9d | .r10d | .r11d | .r12d | .r13d | .r14d | .r15d => true
  | _ => false

/-- The index-register case list (lines 1027-1046): no `%rsp`, `%esp`
or `%rip`. -/
def validIndex : Register → Bool
  | .none | .rax | .rcx | .rdx | .rbx | .rbp | .rsi | .rdi
  | .r8 | .r9 | .r10 | .r11 | .r12 | .r13 | .r14 | .r15
  | .eax | .ecx | .edx | .ebx | .ebp | .esi | .edi
  | .r8d | .r9d | .r10d | .r11d | .r12d | .r13d | .r14d | .r15d => true
  | _ => false

/-- `MemOp` as populated by `parseMemOp`. -/
structure MemOp where
  size : Nat
  seg : Register
  disp : Int
  base : Register
  index : Register
  scale : Nat
deriving DecidableEq, Repr

def INT32_MIN : Int := -2147483648
def INT32_MAX : Int := 2147483647

/-- The validation block at `memop_validate` (lines 989-1062), run with
the just-parsed `seg`/`base`/`index` registers in `memop` and the parsed
displacement and scale in `disp64`/`scale64`.  At this point
`memop.scale` still holds its initialisation value (line 922);
`memop.disp` and `memop.scale` are assigned from `disp64`/`scale64`
only after the last check (lines 1060-1061).  Each fatal `error(...)`
call is modelled as `.error` with a short tag for the message. -/
def parseMemOpValidate (memop : MemOp) (disp64 scale64 : Int) :
    Except String MemOp :=
  if disp64 < INT32_MIN ∨ disp64 > INT32_MAX then .error "displacement"
  else if ¬ validSeg memop.seg then .error "segment register"
  else if ¬ validBase memop.base then .error "base register"
  else if ¬ validIndex memop.index then .error "index register"
  else if ¬ (scale64 = 1 ∨ scale64 = 2 ∨ scale64 = 4 ∨ scale64 = 8) then
    .error "scale"
  else if memop.base = .rip ∧ memop.index ≠ .none ∧ memop.scale ≠ 1 then
    .error "rip"
  else .ok {memop with disp := disp64, scale := scale64.toNat}

/-- The parse outcome as a function of the parsed components: every
path from the token loop to `memop_validate` leaves `memop.scale = 1`
(initialised at line 922 and never reassigned before the check) and
`memop.disp = 0`; the parsed scale is carried only by `scale64`. -/
def parseMemOpFrom (size : Nat) (seg base index : Register)
    (disp64 scale64 : Int) : Except String MemOp :=
  parseMemOpValidate
    { size := size, seg := seg, disp := 0, base := base, index := index,
      scale := 1 } disp64 scale64

/-- C9 (code bug): the `%rip` guard (lines 1056-1059) tests
`memop.scale` — still 1 at that point — conjoined (`&&`) with the index
test, so it can never fire: `mem64<(%rip,%rax,2)>` (base `%rip`, index
`%rax`, scale 2) parses successfully, while the claim — and the error
message at line 1058, "invalid memory operand with %rip base register
and non-empty index/scale" — requires a fatal error. -/
theorem rip_index_scale_accepted :
    parseMemOpFrom 1 .none .rip .rax 0 2 =
      .ok { size := 1, seg := .none, disp := 0, base := .rip, index := .rax,
            scale := 2 } := by rfl

/-- The `%rip` error of `parseMemOp` is unreachable: the guard's last
conjunct reads the not-yet-assigned `memop.scale = 1`. -/
lemma rip_error_unreachable (size : Nat) (seg base index : Register)
    (d s : Int) : parseMemOpFrom size seg base index d s ≠ .error "rip" := by
  intro h
  unfold parseMemOpFrom parseMemOpValidate at h
  split_ifs at h with h1 h2 h3 h4 h5 h6
  all_goals first
    | exact Except.noConfusion h
    | (injection h with h'
       exact absurd h' (by decide))
    | simp_all

end E9Tool
